import Mathlib

/-!
# SvgUtil: SVG attribute parsing (krita, libs/flake/svg/SvgUtil.cpp)

A shallow embedding of the numeric lexer, the unit resolver, the transform list
parser and the transform serialiser of `SvgUtil.cpp`, with the properties of the
specification stated over it.

Conventions of the embedding

* `double` / `qreal` values are exact rationals (`ℚ`): rounding is not modelled.
  Where the code can leave the finite range (the powers of ten and the products of
  the numeric lexer and of the unit resolver, the quotients of the viewBox resolver)
  a value is a `QReal`: a rational, an infinity or a NaN. An operation of the lexer
  or of the unit resolver overflows to an infinity when its exact result reaches
  `2 ^ 1024 - 2 ^ 970` and underflows to zero when it is at most `2 ^ (-1075)`.
* `int` is a 32 bit two's complement integer: every `int` result is reduced by
  `wrapInt`.
* A `QString` is the list of its characters; a `const char *` into a NUL-terminated
  buffer is the list of the characters that remain before the terminator.
* The functions of `<math.h>` (`sin`, `cos`, `tan`, `sqrt`) are not rational valued;
  they are taken as parameters (`Libm`).
* A read `list[i]` outside the bounds of a `QStringList` has no defined result: the
  functions that perform such reads return `Option`, and `none` stands for the
  out-of-range read.
-/

/-! ## Qt strings -/

/-- A `QString`, as the list of its characters. -/
abbrev QString := List Char

/-- A `QStringList`. -/
abbrev QStringList := List QString

namespace QChar

/-- The `QChar::isSpace` test: the ASCII control whitespace, the space, NEL, the
no-break space and the Unicode separators (categories Zs, Zl, Zp). -/
def isSpace (c : Char) : Bool :=
  let n := c.toNat
  (9 ≤ n && n ≤ 13) || n == 32 || n == 133 || n == 160 || n == 5760 ||
  (8192 ≤ n && n ≤ 8202) || n == 8232 || n == 8233 || n == 8239 || n == 8287 || n == 12288

end QChar

namespace QString

/-- The `QString::split(sep, QString::SkipEmptyParts)` call, the separator being any
character of the class `p` (a single character, or a bracket expression of a
`QRegExp`). -/
def split (p : Char → Bool) (s : QString) : QStringList :=
  (s.splitOnP p).filter (fun part => !part.isEmpty)

/-- The `QString::trimmed` call: whitespace removed from both ends. -/
def trimmed (s : QString) : QString :=
  ((s.dropWhile QChar.isSpace).reverse.dropWhile QChar.isSpace).reverse

/-- The `QString::simplified` call: whitespace removed from both ends, and every
internal run of whitespace replaced by one space. -/
def simplified (s : QString) : QString :=
  [' '].intercalate (split QChar.isSpace s)

/-- The `QString::toLower` call, on the Latin letters. -/
def toLower (s : QString) : QString := s.map Char.toLower

/-- The `QString::startsWith(QChar)` call. -/
def startsWith (s : QString) (c : Char) : Bool :=
  match s with
  | [] => false
  | d :: _ => d == c

/-- The `QString::right(n)` call: the `n` rightmost characters, the whole string
when it is shorter. -/
def right (s : QString) (n : Nat) : QString := s.drop (s.length - n)

/-- Whether a character is an ASCII decimal digit. -/
def isDigit (c : Char) : Bool := 48 ≤ c.toNat && c.toNat ≤ 57

/-- The value of a run of decimal digits. -/
def digitsValue (ds : List Char) : Nat :=
  ds.foldl (fun acc c => acc * 10 + (c.toNat - 48)) 0

/-- Ten to an integer power, as a rational. -/
def pow10 (e : Int) : ℚ :=
  match e with
  | Int.ofNat n => (10 : ℚ) ^ n
  | Int.negSucc n => ((10 : ℚ) ^ (n + 1))⁻¹

/-- An optional sign: the factor it stands for and the text after it. -/
def takeSign (s : List Char) : Int × List Char :=
  match s with
  | '+' :: cs => (1, cs)
  | '-' :: cs => (-1, cs)
  | _ => (1, s)

/-- The exponent part of a decimal text, `e` or `E`, an optional sign and at least
one digit, up to the end: the exponent it denotes. -/
def exponentOf (s : List Char) : Option Int :=
  match s with
  | [] => some 0
  | c :: cs =>
    if c == 'e' || c == 'E' then
      let (sg, ds) := takeSign cs
      if !ds.isEmpty && ds.all isDigit then some (sg * (digitsValue ds : Int)) else none
    else none

/-- The `QString::toDouble` call in the C locale, on decimal text: surrounding
whitespace, an optional sign, digits with an optional fraction, an optional
exponent. Text that is not of this form converts to `0`. -/
def toDouble (s : QString) : ℚ :=
  let (sg, body) := takeSign (trimmed s)
  let (ip, r1) := body.span isDigit
  let (fp, r2) :=
    match r1 with
    | '.' :: cs => cs.span isDigit
    | _ => ([], r1)
  if ip.isEmpty && fp.isEmpty then 0
  else
    match exponentOf r2 with
    | none => 0
    | some e =>
      (sg : ℚ) * (((digitsValue ip : ℚ) + (digitsValue fp : ℚ) / (10 : ℚ) ^ fp.length) * pow10 e)

end QString

/-! ## Qt geometry -/

/-- The functions of `<math.h>` the code calls, on exact values. The trigonometric
functions take their argument in degrees: `sinDeg a` stands for `sin (a / 180 * π)`. -/
structure Libm where
  /-- The sine of an angle given in degrees. -/
  sinDeg : ℚ → ℚ
  /-- The cosine of an angle given in degrees. -/
  cosDeg : ℚ → ℚ
  /-- The tangent of an angle given in degrees. -/
  tanDeg : ℚ → ℚ
  /-- The square root. -/
  sqrt : ℚ → ℚ

/-- A `QPointF`. -/
structure QPointF where
  x : ℚ
  y : ℚ
deriving DecidableEq, Repr

/-- A `QSizeF`. -/
structure QSizeF where
  width : ℚ
  height : ℚ
deriving DecidableEq, Repr

/-- A `QRectF`: the top left corner and the size. -/
structure QRectF where
  x : ℚ
  y : ℚ
  width : ℚ
  height : ℚ
deriving DecidableEq, Repr

/-- An affine `QTransform`: the matrix
`(m11 m12 0; m21 m22 0; dx dy 1)`, which maps the point `(x, y)` to
`(m11 * x + m21 * y + dx, m12 * x + m22 * y + dy)`. The projective column stays
`(0, 0, 1)` in every transform the code builds. -/
structure QTransform where
  m11 : ℚ
  m12 : ℚ
  m21 : ℚ
  m22 : ℚ
  dx : ℚ
  dy : ℚ
deriving DecidableEq, Repr

/-- The `QTransform::TransformationType` values of an affine transform. -/
inductive TransformationType where
  | TxNone
  | TxTranslate
  | TxScale
  | TxRotate
  | TxShear
deriving DecidableEq, Repr

namespace QTransform

/-- The default constructed `QTransform`: the identity. -/
def identity : QTransform := ⟨1, 0, 0, 1, 0, 0⟩

/-- The `QTransform::map(QPointF)` call. -/
def map (t : QTransform) (p : QPointF) : QPointF :=
  ⟨t.m11 * p.x + t.m21 * p.y + t.dx, t.m12 * p.x + t.m22 * p.y + t.dy⟩

/-- The product `a * b` of `QTransform::operator*`: `a` is applied to a point first,
then `b`. -/
def mul (a b : QTransform) : QTransform :=
  ⟨a.m11 * b.m11 + a.m12 * b.m21, a.m11 * b.m12 + a.m12 * b.m22,
   a.m21 * b.m11 + a.m22 * b.m21, a.m21 * b.m12 + a.m22 * b.m22,
   a.dx * b.m11 + a.dy * b.m21 + b.dx, a.dx * b.m12 + a.dy * b.m22 + b.dy⟩

/-- The `QTransform::translate(dx, dy)` call: the coordinate system is moved, that
is, the translation is applied to a point before the transform so far. -/
def translate (t : QTransform) (dx dy : ℚ) : QTransform :=
  { t with dx := t.dx + dx * t.m11 + dy * t.m21, dy := t.dy + dy * t.m22 + dx * t.m12 }

/-- The `QTransform::scale(sx, sy)` call. -/
def scale (t : QTransform) (sx sy : ℚ) : QTransform :=
  { t with m11 := t.m11 * sx, m12 := t.m12 * sx, m21 := t.m21 * sy, m22 := t.m22 * sy }

/-- The `QTransform::shear(sh, sv)` call. -/
def shear (t : QTransform) (sh sv : ℚ) : QTransform :=
  { t with m11 := t.m11 + sv * t.m21, m12 := t.m12 + sv * t.m22,
           m21 := t.m21 + sh * t.m11, m22 := t.m22 + sh * t.m12 }

/-- The sine and cosine `QTransform::rotate` uses for an angle in degrees: exact at
the right angles, the library functions elsewhere. -/
def sinCos (lm : Libm) (a : ℚ) : ℚ × ℚ :=
  if a = 90 ∨ a = -270 then (1, 0)
  else if a = 270 ∨ a = -90 then (-1, 0)
  else if a = 180 then (0, -1)
  else (lm.sinDeg a, lm.cosDeg a)

/-- The `QTransform::rotate(a)` call, about the z axis, `a` in degrees. -/
def rotate (lm : Libm) (t : QTransform) (a : ℚ) : QTransform :=
  if a = 0 then t
  else
    let sina := (sinCos lm a).1
    let cosa := (sinCos lm a).2
    { t with m11 := cosa * t.m11 + sina * t.m21, m12 := cosa * t.m12 + sina * t.m22,
             m21 := -sina * t.m11 + cosa * t.m21, m22 := -sina * t.m12 + cosa * t.m22 }

/-- The `QTransform::setMatrix` call with the projective column `(0, 0, 1)`: every
coefficient is overwritten. -/
def setMatrix (_t : QTransform) (m11 m12 m21 m22 m31 m32 : ℚ) : QTransform :=
  ⟨m11, m12, m21, m22, m31, m32⟩

/-- The `QTransform::type` call: the highest transformation type the matrix needs. -/
def type (t : QTransform) : TransformationType :=
  if t.m12 ≠ 0 ∨ t.m21 ≠ 0 then
    (if t.m11 * t.m12 + t.m21 * t.m22 = 0 then TransformationType.TxRotate
     else TransformationType.TxShear)
  else if t.m11 ≠ 1 ∨ t.m22 ≠ 1 then TransformationType.TxScale
  else if t.dx ≠ 0 ∨ t.dy ≠ 0 then TransformationType.TxTranslate
  else TransformationType.TxNone

/-- The `QTransform::isIdentity` call. -/
def isIdentity (t : QTransform) : Bool := t.type == TransformationType.TxNone

end QTransform

/-! ## Number formatting -/

namespace QString

/-- The `n` lowest decimal digits of `k`, the most significant first. -/
def lastDigits : Nat → Nat → List Char
  | 0, _ => []
  | n + 1, k => lastDigits n (k / 10) ++ [Char.ofNat (48 + k % 10)]

/-- The number of decimal digits of `k`, counted with `fuel` steps at most. -/
def digitCountAux : Nat → Nat → Nat
  | 0, _ => 1
  | fuel + 1, k => if k < 10 then 1 else 1 + digitCountAux fuel (k / 10)

/-- The number of decimal digits of `k` (one for zero). -/
def digitCount (k : Nat) : Nat := digitCountAux k k

/-- The decimal digits of `k`. -/
def natDigits (k : Nat) : List Char := lastDigits (digitCount k) k

/-- A digit string without its trailing zeros. -/
def stripTrailingZeros (l : List Char) : List Char :=
  (l.reverse.dropWhile (fun c => c == '0')).reverse

/-- The decimal exponent `X` of a positive rational `a`: `10 ^ X ≤ a < 10 ^ (X + 1)`. -/
def decimalExponent (a : ℚ) : Int :=
  let e0 : Int := (digitCount a.num.natAbs : Int) - (digitCount a.den : Int)
  if pow10 e0 ≤ a then e0 else e0 - 1

/-- The fraction digits of a formatted number: nothing when they are all zero. -/
def fractionText (ds : List Char) : List Char :=
  let f := stripTrailingZeros ds
  if f.isEmpty then [] else '.' :: f

/-- The exponent of the exponent form: a sign and two digits at least. -/
def exponentText (x : Int) : List Char :=
  'e' :: (if x < 0 then '-' else '+') ::
    (if x.natAbs < 10 then '0' :: natDigits x.natAbs else natDigits x.natAbs)

/-- The text of a value with the sign `neg`, the six significant digits `n` and the
decimal exponent `x`: the exponent form when `x` is below `-4` or above `5`, the
decimal form otherwise, without trailing zeros. -/
def significandText (neg : Bool) (n : Nat) (x : Int) : QString :=
  let six := lastDigits 6 n
  let sign := if neg then ['-'] else []
  if x < -4 ∨ 6 ≤ x then
    sign ++ six.take 1 ++ fractionText (six.drop 1) ++ exponentText x
  else if 0 ≤ x then
    sign ++ six.take (x.toNat + 1) ++ fractionText (six.drop (x.toNat + 1))
  else
    sign ++ ['0', '.'] ++ List.replicate ((-x).toNat - 1) '0' ++ stripTrailingZeros six

/-- The text `QString::arg(double)` and `QString::number(double)` give a value in
their default format (`'g'`, six significant digits, C locale): the value is rounded
to six significant digits, printed in exponent form when its decimal exponent is
below `-4` or above `5` and in decimal form otherwise, without trailing zeros. -/
def number (q : ℚ) : QString :=
  if q = 0 then ['0']
  else
    let a := |q|
    let x0 := decimalExponent a
    let n0 := (⌊a / pow10 (x0 - 5) + 1 / 2⌋).toNat
    if 1000000 ≤ n0 then significandText (decide (q < 0)) (n0 / 10) (x0 + 1)
    else significandText (decide (q < 0)) n0 x0

/-- The characters of a formatted number. -/
def isNumberChar (c : Char) : Bool :=
  isDigit c || c == '.' || c == 'e' || c == '+' || c == '-'

/-- Whether the formatter prints a value without loss: the text reads back as the
value. -/
def printsExactly (q : ℚ) : Bool := decide (toDouble (number q) = q)

end QString

/-! ## Values of type double -/

/-- A `double` (`qreal`) value where the code can leave the finite range: a finite
value, as the rational it stands for, an infinity or a NaN. The rounding of a finite
value to 53 significant bits and the sign of a zero are not modelled. -/
inductive QReal where
  | finite (q : ℚ)
  | posInf
  | negInf
  | nan
deriving DecidableEq, Repr

namespace QReal

/-- The quotient `a / b` of two finite values, where the code may divide by zero: a
rational when the divisor is not zero, an infinity or a NaN when it is (zero is
taken as the positive zero). -/
def div (a b : ℚ) : QReal :=
  if b ≠ 0 then finite (a / b)
  else if 0 < a then posInf
  else if a < 0 then negInf
  else nan

/-- The comparison `a > b`: false when an operand is a NaN. -/
def gt : QReal → QReal → Bool
  | finite a, finite b => decide (b < a)
  | posInf, finite _ => true
  | posInf, negInf => true
  | finite _, negInf => true
  | _, _ => false

/-- The rational value of a quotient, when it has one. -/
def toOption : QReal → Option ℚ
  | finite q => some q
  | _ => none

/-- The least magnitude that is rounded to an infinity, `2 ^ 1024 - 2 ^ 970`: the
largest `double`, `2 ^ 1024 - 2 ^ 971`, and half a unit in its last place. -/
def overflowBound : ℚ := ((2 ^ 1024 - 2 ^ 970 : Nat) : ℚ)

/-- The largest magnitude that is rounded to zero, `2 ^ (-1075)`: half the least
positive `double`, `2 ^ (-1074)`. -/
def underflowBound : ℚ := 1 / ((2 ^ 1075 : Nat) : ℚ)

/-- The least positive normal `double`, `2 ^ (-1022)`. -/
def minNormal : ℚ := 1 / ((2 ^ 1022 : Nat) : ℚ)

/-- A finite result that cannot overflow, after underflow: a magnitude of at most
`underflowBound` is rounded to zero. -/
def flush (q : ℚ) : ℚ := if |q| ≤ underflowBound then 0 else q

/-- The `double` an arithmetic operation stores for the exact result `q`: an
infinity when the magnitude reaches `overflowBound`, zero when it is at most
`underflowBound`. -/
def ofExact (q : ℚ) : QReal :=
  if overflowBound ≤ q then posInf
  else if q ≤ -overflowBound then negInf
  else finite (flush q)

/-- Whether a value is zero or has the magnitude of a normal `double`: such a value
neither overflows nor underflows. -/
def isNormal (q : ℚ) : Bool :=
  decide (q = 0) || (decide (minNormal ≤ |q|) && decide (|q| < overflowBound))

/-- The product `a * b` of two `double` values. -/
def mul : QReal → QReal → QReal
  | finite a, finite b => ofExact (a * b)
  | nan, _ => nan
  | _, nan => nan
  | posInf, finite b => if 0 < b then posInf else if b < 0 then negInf else nan
  | negInf, finite b => if 0 < b then negInf else if b < 0 then posInf else nan
  | finite a, posInf => if 0 < a then posInf else if a < 0 then negInf else nan
  | finite a, negInf => if 0 < a then negInf else if a < 0 then posInf else nan
  | posInf, posInf => posInf
  | posInf, negInf => negInf
  | negInf, posInf => negInf
  | negInf, negInf => posInf

/-- The call `sqrt(a)` of `<math.h>` on a `double` value. -/
def sqrt (lm : Libm) : QReal → QReal
  | finite a => if a < 0 then nan else finite (lm.sqrt a)
  | posInf => posInf
  | negInf => nan
  | nan => nan

/-- The call `pow((double)10, double(e))` of `<math.h>` for an `int` `e`: the power
of ten as a `double`, an infinity above `10 ^ 308` and zero below `10 ^ (-323)`. -/
def pow10 (e : Int) : QReal := ofExact (QString.pow10 e)

end QReal

/-! ## The graphics context and the unit macros -/

/-- A 32 bit `int` result: the value reduced to `[-2^31, 2^31)`. -/
def wrapInt (z : Int) : Int := (z + 2147483648) % 4294967296 - 2147483648

namespace SvgUtil

/-- The function `SvgUtil::fromUserSpace(double)`. -/
def fromUserSpace (value : ℚ) : ℚ := value

/-- The function `SvgUtil::fromUserSpace(double)` on a value that may be an infinity
or a NaN. -/
def QReal.fromUserSpace (value : QReal) : QReal := value

/-- The function `SvgUtil::toUserSpace(double)`. -/
def toUserSpace (value : ℚ) : ℚ := value

/-- The loop test `*ptr != '\0' && *ptr >= '0' && *ptr <= '9'` on the character
read. -/
def isDigitChar (c : Char) : Bool := c.toNat != 0 && 48 ≤ c.toNat && c.toNat ≤ 57

/-- The integer part loop of `parseNumber`:
`integer = (integer * 10) + *(ptr++) - '0'` while a digit is read. -/
def readInteger : Int → List Char → Int × List Char
  | integer, [] => (integer, [])
  | integer, c :: cs =>
    if isDigitChar c then
      readInteger (wrapInt (wrapInt (wrapInt (integer * 10) + (c.toNat : Int)) - 48)) cs
    else (integer, c :: cs)

/-- The decimals loop of `parseNumber`:
`decimal += (*(ptr++) - '0') * (frac *= 0.1)` while a digit is read. Both `frac` and
`decimal` stay between 0 and 1; a product that underflows is zero. -/
def readDecimals : ℚ → ℚ → List Char → ℚ × List Char
  | decimal, _, [] => (decimal, [])
  | decimal, frac, c :: cs =>
    if isDigitChar c then
      readDecimals
        (decimal +
          QReal.flush ((((c.toNat : Int) - 48 : Int) : ℚ) * QReal.flush (frac * (1 / 10))))
        (QReal.flush (frac * (1 / 10))) cs
    else (decimal, c :: cs)

/-- The exponent loop of `parseNumber`:
`exponent *= 10; exponent += *ptr - '0'; ptr++` while a digit is read. -/
def readExponent : Int → List Char → Int × List Char
  | exponent, [] => (exponent, [])
  | exponent, c :: cs =>
    if isDigitChar c then
      readExponent (wrapInt (wrapInt (exponent * 10) + wrapInt ((c.toNat : Int) - 48))) cs
    else (exponent, c :: cs)

/-- The sign step of `parseNumber`: a `+` or `-` is consumed. -/
def readSign (ptr : List Char) : Int × List Char :=
  match ptr with
  | c :: cs => if c = '+' then (1, cs) else if c = '-' then (-1, cs) else (1, c :: cs)
  | [] => (1, [])

/-- The decimals step of `parseNumber`: after a `.` the decimals are read; the
decimal part and the text left. -/
def readFraction (ptr : List Char) : ℚ × List Char :=
  match ptr with
  | c :: cs => if c = '.' then readDecimals 0 1 cs else (0, c :: cs)
  | [] => (0, [])

/-- The exponent step of `parseNumber`: after an `e` or `E`, the sign of the
exponent and its digits are read; the sign, the exponent and the text left. -/
def readExponentPart (ptr : List Char) : Int × Int × List Char :=
  match ptr with
  | c :: cs =>
    if c = 'e' ∨ c = 'E' then
      ((readSign cs).1, (readExponent 0 (readSign cs).2).1, (readExponent 0 (readSign cs).2).2)
    else (1, 0, c :: cs)
  | [] => (1, 0, [])

/-- The function `SvgUtil::parseNumber(const char *ptr, qreal &number)`: the number
stored and the returned pointer, as the text that was not consumed. The sum
`integer + decimal` of an `int` and a value below 1 is finite; the power of ten and
the two products can overflow. -/
def parseNumber (ptr : List Char) : QReal × List Char :=
  -- read the sign
  let s := readSign ptr
  -- read the integer part
  let i := readInteger 0 s.2
  -- read the decimals
  let d := readFraction i.2
  -- read the exponent part
  let e := readExponentPart d.2
  -- number = integer + decimal; number *= sign * pow(10, expsign * exponent)
  ((QReal.finite (((i.1 : Int) : ℚ) + d.1)).mul
    ((QReal.finite (s.1 : ℚ)).mul (QReal.pow10 (wrapInt (e.1 * e.2.1)))), e.2.2)

/-- The number of characters `parseNumber` consumes, `end - start`. -/
def parseNumberEnd (ptr : List Char) : Nat := ptr.length - (parseNumber ptr).2.length

end SvgUtil

namespace SvgUtil

/-- The separator class of `QRegExp("[,( ]")`. -/
def isParamSep (c : Char) : Bool := c == ',' || c == '(' || c == ' '

/-- The read `params[i].toDouble()`: `none` when `i` is outside the list. -/
def paramAt (params : QStringList) (i : Nat) : Option ℚ :=
  (params[i]?).map QString.toDouble

/-- The function name of a chunk, as `parseTransform` compares it: `subtransform[0]`
trimmed and lowered, then without one leading `;` or `,`. -/
def commandName (s0 : QString) : QString :=
  let name := QString.toLower (QString.trimmed s0)
  if QString.startsWith name ';' || QString.startsWith name ',' then
    QString.right name (name.length - 1)
  else name

/-- The chain of comparisons of `parseTransform` on the function name: the transform
accumulated so far is updated by the primitive `name` with the parameters `params`. -/
def applyCommand (lm : Libm) (result : QTransform) (name : QString)
    (params : QStringList) : Option QTransform :=
  if name = "rotate".toList then
    if params.length = 3 then do
      let x ← paramAt params 1
      let y ← paramAt params 2
      let a ← paramAt params 0
      pure (((result.translate x y).rotate lm a).translate (-x) (-y))
    else do
      let a ← paramAt params 0
      pure (result.rotate lm a)
  else if name = "translate".toList then
    if params.length = 2 then do
      let tx ← paramAt params 0
      let ty ← paramAt params 1
      pure (result.translate (fromUserSpace tx) (fromUserSpace ty))
    else do
      let tx ← paramAt params 0
      pure (result.translate (fromUserSpace tx) 0)
  else if name = "scale".toList then
    if params.length = 2 then do
      let sx ← paramAt params 0
      let sy ← paramAt params 1
      pure (result.scale sx sy)
    else do
      let s ← paramAt params 0
      pure (result.scale s s)
  else if QString.toLower name = "skewx".toList then do
    let a ← paramAt params 0
    pure (result.shear (lm.tanDeg a) 0)
  else if QString.toLower name = "skewy".toList then do
    let a ← paramAt params 0
    pure (result.shear 0 (lm.tanDeg a))
  else if name = "matrix".toList then
    if 6 ≤ params.length then do
      let m11 ← paramAt params 0
      let m12 ← paramAt params 1
      let m21 ← paramAt params 2
      let m22 ← paramAt params 3
      let m31 ← paramAt params 4
      let m32 ← paramAt params 5
      pure (result.setMatrix m11 m12 m21 m22 (fromUserSpace m31) (fromUserSpace m32))
    else pure result
  else pure result

/-- The body of the loop of `parseTransform` for one chunk of the split at `)`: the
chunk is split at `(`, a chunk of fewer than two pieces is skipped, and the
parameters are the pieces of the second piece between the separators `[,( ]`. -/
def parseSubtransform (lm : Libm) (result : QTransform) (chunk : QString) :
    Option QTransform :=
  match QString.split (fun c => c == '(') (QString.simplified chunk) with
  | s0 :: s1 :: _ =>
    applyCommand lm result (commandName s0) (QString.split isParamSep (QString.simplified s1))
  | _ => pure result

/-- The function `SvgUtil::parseTransform`: `none` when a parameter is read outside
the parameter list. -/
def parseTransform (lm : Libm) (transform : QString) : Option QTransform :=
  (QString.split (fun c => c == ')') transform).foldlM (parseSubtransform lm)
    QTransform.identity

/-- The function `SvgUtil::transformToString`. The place markers `%1`, `%2`, ... are
replaced in turn by the formatted numbers, whose text holds no `%`. -/
def transformToString (transform : QTransform) : QString :=
  if transform.isIdentity then []
  else if transform.type = TransformationType.TxTranslate then
    "translate(".toList ++ QString.number (toUserSpace transform.dx) ++ ", ".toList ++
      QString.number (toUserSpace transform.dy) ++ ")".toList
  else
    "matrix(".toList ++ QString.number transform.m11 ++ " ".toList ++
      QString.number transform.m12 ++ " ".toList ++
      QString.number transform.m21 ++ " ".toList ++
      QString.number transform.m22 ++ " ".toList ++
      QString.number (toUserSpace transform.dx) ++ " ".toList ++
      QString.number (toUserSpace transform.dy) ++ ")".toList

end SvgUtil

/-! ## Vocabulary of the statements -/

namespace QString

/-- A word: a non-empty text without whitespace. -/
def IsWord (w : QString) : Prop := w ≠ [] ∧ ∀ c ∈ w, QChar.isSpace c = false

end QString

namespace SvgUtil

/-- A piece of a chunk: a non-empty text without whitespace and without `(`. -/
def IsPiece (w : QString) : Prop := w ≠ [] ∧ ∀ c ∈ w, QChar.isSpace c = false ∧ c ≠ '('

/-- A parameter token: a non-empty text without whitespace, parenthesis or comma. -/
def IsParam (w : QString) : Prop :=
  w ≠ [] ∧ ∀ c ∈ w, QChar.isSpace c = false ∧ c ≠ '(' ∧ c ≠ ')' ∧ c ≠ ','

/-- The decidable form of `IsParam`. -/
def isParamToken (w : QString) : Bool :=
  !w.isEmpty && w.all (fun c => !QChar.isSpace c && c != '(' && c != ')' && c != ',')

/-- Whether a text is made of whitespace only. -/
def isBlank (w : QString) : Bool := w.all QChar.isSpace

/-- A translate or scale primitive of a transform list, with the text of its
parameters. -/
inductive Primitive where
  | translate (tx ty : QString)
  | translate1 (tx : QString)
  | scale (sx sy : QString)
  | scale1 (s : QString)

namespace Primitive

/-- The text of a primitive up to its closing parenthesis. -/
def body : Primitive → QString
  | translate tx ty => "translate(".toList ++ tx ++ ",".toList ++ ty
  | translate1 tx => "translate(".toList ++ tx
  | scale sx sy => "scale(".toList ++ sx ++ ",".toList ++ sy
  | scale1 s => "scale(".toList ++ s

/-- Whether the parameters of a primitive are parameter tokens. -/
def wellFormed : Primitive → Bool
  | translate tx ty => isParamToken tx && isParamToken ty
  | translate1 tx => isParamToken tx
  | scale sx sy => isParamToken sx && isParamToken sy
  | scale1 s => isParamToken s

/-- The map of the plane a primitive stands for. -/
def act : Primitive → QPointF → QPointF
  | translate tx ty, p => ⟨p.x + QString.toDouble tx, p.y + QString.toDouble ty⟩
  | translate1 tx, p => ⟨p.x + QString.toDouble tx, p.y⟩
  | scale sx sy, p => ⟨QString.toDouble sx * p.x, QString.toDouble sy * p.y⟩
  | scale1 s, p => ⟨QString.toDouble s * p.x, QString.toDouble s * p.y⟩

/-- The matrix of a primitive. -/
def matrix : Primitive → QTransform
  | translate tx ty => ⟨1, 0, 0, 1, QString.toDouble tx, QString.toDouble ty⟩
  | translate1 tx => ⟨1, 0, 0, 1, QString.toDouble tx, 0⟩
  | scale sx sy => ⟨QString.toDouble sx, 0, 0, QString.toDouble sy, 0, 0⟩
  | scale1 s => ⟨QString.toDouble s, 0, 0, QString.toDouble s, 0, 0⟩

end Primitive

/-- The text of a transform list: every primitive is written after a run of
whitespace (which may be empty) and closed by `)`. -/
def transformListText : List (QString × Primitive) → QString
  | [] => []
  | (ws, p) :: rest => ws ++ p.body ++ ')' :: transformListText rest

/-- The composition of the matrices of a transform list in source order, each one
appended to the product so far: in the row vector convention of `QTransform` the
appended matrix is the left factor, so it acts on a point first. -/
def composeList (items : List (QString × Primitive)) : QTransform :=
  items.foldl (fun acc it => it.2.matrix.mul acc) QTransform.identity

end SvgUtil

/-- A stand-in for the math library, for the statements that are evaluated at a
concrete input: it answers as `sin`, `cos` and `tan` do at the angle `0`, and as
`sqrt` does at `0` and `1`. The theorems hold for every library. -/
def Libm.sample : Libm := ⟨fun _ => 0, fun _ => 1, fun _ => 0, fun x => x⟩

/-- The rotation by `a` degrees about the pivot `(x, y)` as the rotate branch builds
it: translate(x, y), rotate(a) and translate(-x, -y), appended in this order. -/
def QTransform.rotateAbout (lm : Libm) (a x y : ℚ) : QTransform :=
  ((QTransform.identity.translate x y).rotate lm a).translate (-x) (-y)

/-- Whether the formatter prints the six coefficients of a transform without loss. -/
def QTransform.printsExactly (t : QTransform) : Bool :=
  QString.printsExactly t.m11 && QString.printsExactly t.m12 &&
  QString.printsExactly t.m21 && QString.printsExactly t.m22 &&
  QString.printsExactly t.dx && QString.printsExactly t.dy

/-! ## Number literals -/

/-- The exponent part of a number literal: the marker `e` or `E`, an optional sign
(`some true` for `-`, `some false` for `+`) and the exponent digits. -/
structure ExponentPart where
  upper : Bool
  sign : Option Bool
  digits : List (Fin 10)

/-- A number literal of the grammar of the lexer: an optional sign (`some true` for
`-`, `some false` for `+`), the integer digits, an optional `.` with the fraction
digits, an optional exponent part. -/
structure NumberLiteral where
  sign : Option Bool
  intDigits : List (Fin 10)
  fracDigits : Option (List (Fin 10))
  exponent : Option ExponentPart

namespace NumberLiteral

/-- The character of a decimal digit. -/
def digitChar (d : Fin 10) : Char := Char.ofNat (48 + d.val)

/-- The text of a run of digits. -/
def digitsText (ds : List (Fin 10)) : List Char := ds.map digitChar

/-- The number a run of digits denotes. -/
def digitsNat (ds : List (Fin 10)) : Nat := ds.foldl (fun acc d => acc * 10 + d.val) 0

/-- The text of an optional sign. -/
def signText : Option Bool → List Char
  | none => []
  | some false => ['+']
  | some true => ['-']

/-- The factor an optional sign stands for. -/
def signFactor : Option Bool → Int
  | some true => -1
  | _ => 1

/-- The text of an exponent part. -/
def exponentText (e : ExponentPart) : List Char :=
  (if e.upper then 'E' else 'e') :: (signText e.sign ++ digitsText e.digits)

/-- The text of a literal. -/
def text (l : NumberLiteral) : List Char :=
  signText l.sign ++ digitsText l.intDigits ++
    (match l.fracDigits with
     | none => []
     | some fs => '.' :: digitsText fs) ++
    (match l.exponent with
     | none => []
     | some e => exponentText e)

/-- The integer part of a literal. -/
def integerPart (l : NumberLiteral) : Nat := digitsNat l.intDigits

/-- The fraction of a literal: its fraction digits after the decimal point. -/
def fraction (l : NumberLiteral) : ℚ :=
  match l.fracDigits with
  | none => 0
  | some fs => (digitsNat fs : ℚ) / (10 : ℚ) ^ fs.length

/-- The signed exponent of a literal. -/
def signedExponent (l : NumberLiteral) : Int :=
  match l.exponent with
  | none => 0
  | some e => signFactor e.sign * (digitsNat e.digits : Int)

/-- The number a literal denotes: sign * (integer + fraction) * 10 ^ exponent. -/
def value (l : NumberLiteral) : ℚ :=
  (signFactor l.sign : ℚ) * ((l.integerPart : ℚ) + l.fraction) * (10 : ℚ) ^ l.signedExponent

end NumberLiteral

namespace SvgUtil

end SvgUtil

namespace SvgUtil

/-- Whether the first character of a text satisfies `p`; `false` for the empty text. -/
def headIs (p : Char → Bool) (s : List Char) : Bool :=
  match s with
  | [] => false
  | c :: _ => p c

/-- Whether a text starts with an exponent marker, `e` or `E`. -/
def startsExponent (u : List Char) : Bool := headIs (fun c => c == 'e' || c == 'E') u

end SvgUtil

namespace SvgUtil

/-- Whether a number without sign starts a text: a digit, or a `.` and a digit. -/
def startsUnsignedNumber (s : List Char) : Bool :=
  match s with
  | c :: cs => isDigitChar c || (c == '.' && headIs isDigitChar cs)
  | [] => false

/-- Whether a number of the grammar starts a text: after an optional sign, a digit
of the integer part or of the fraction. -/
def startsNumber (s : List Char) : Bool :=
  match s with
  | c :: cs => if c = '+' ∨ c = '-' then startsUnsignedNumber cs else startsUnsignedNumber s
  | [] => false

/-- Whether a text starts with a character the lexer consumes: a sign, a digit, a
`.` or an exponent marker. -/
def startsNumeric (s : List Char) : Bool :=
  headIs (fun c => isDigitChar c || c == '+' || c == '-' || c == '.' || c == 'e' || c == 'E') s

end SvgUtil

/-! ## Percentages and the object bounding box -/

namespace QRectF

/-- The `QRectF::left` call. -/
def left (r : QRectF) : ℚ := r.x

/-- The `QRectF::top` call. -/
def top (r : QRectF) : ℚ := r.y

/-- The `QRectF::setX` call: the left edge moves, the right edge stays. -/
def setX (r : QRectF) (pos : ℚ) : QRectF := { r with x := pos, width := r.width - (pos - r.x) }

/-- The `QRectF::setY` call: the top edge moves, the bottom edge stays. -/
def setY (r : QRectF) (pos : ℚ) : QRectF := { r with y := pos, height := r.height - (pos - r.y) }

/-- The `QRectF::setWidth` call. -/
def setWidth (r : QRectF) (w : ℚ) : QRectF := { r with width := w }

/-- The `QRectF::setHeight` call. -/
def setHeight (r : QRectF) (h : ℚ) : QRectF := { r with height := h }

/-- Whether a point lies in a rectangle, its edges included. -/
def Contains (r : QRectF) (p : QPointF) : Prop :=
  r.x ≤ p.x ∧ p.x ≤ r.x + r.width ∧ r.y ≤ p.y ∧ p.y ≤ r.y + r.height

end QRectF

namespace SvgUtil

/-- The function `SvgUtil::objectToUserSpace(const QPointF &, const QRectF &)`. -/
def objectToUserSpace (position : QPointF) (objectBound : QRectF) : QPointF :=
  ⟨objectBound.left + position.x * objectBound.width,
   objectBound.top + position.y * objectBound.height⟩

/-- The function `SvgUtil::objectToUserSpace(const QSizeF &, const QRectF &)`. -/
def objectToUserSpaceSize (size : QSizeF) (objectBound : QRectF) : QSizeF :=
  ⟨size.width * objectBound.width, size.height * objectBound.height⟩

/-- The function `SvgUtil::userSpaceToObject(const QPointF &, const QRectF &)`: the
two coordinates as the code computes them, each a constant or a quotient. -/
def userSpaceToObjectCoords (position : QPointF) (objectBound : QRectF) : QReal × QReal :=
  (if objectBound.width ≠ 0 then QReal.div (position.x - objectBound.x) objectBound.width
   else QReal.finite 0,
   if objectBound.height ≠ 0 then QReal.div (position.y - objectBound.y) objectBound.height
   else QReal.finite 0)

/-- The function `SvgUtil::userSpaceToObject(const QPointF &, const QRectF &)`:
`none` when a coordinate is the result of a division by zero. -/
def userSpaceToObject (position : QPointF) (objectBound : QRectF) : Option QPointF := do
  let x ← (userSpaceToObjectCoords position objectBound).1.toOption
  let y ← (userSpaceToObjectCoords position objectBound).2.toOption
  pure ⟨x, y⟩

/-- The function `SvgUtil::userSpaceToObject(const QSizeF &, const QRectF &)`: the
two extents as the code computes them. -/
def userSpaceToObjectSizeCoords (size : QSizeF) (objectBound : QRectF) : QReal × QReal :=
  (if objectBound.width ≠ 0 then QReal.div size.width objectBound.width else QReal.finite 0,
   if objectBound.height ≠ 0 then QReal.div size.height objectBound.height
   else QReal.finite 0)

/-- The function `SvgUtil::userSpaceToObject(const QSizeF &, const QRectF &)`: `none`
when an extent is the result of a division by zero. -/
def userSpaceToObjectSize (size : QSizeF) (objectBound : QRectF) : Option QSizeF := do
  let w ← (userSpaceToObjectSizeCoords size objectBound).1.toOption
  let h ← (userSpaceToObjectSizeCoords size objectBound).2.toOption
  pure ⟨w, h⟩

end SvgUtil

namespace NumberLiteral

/-- Whether a literal is a decimal number as `QString::toDouble` reads one: it has a
digit in its integer part or in its fraction, and its exponent part, if any, has a
digit. -/
def isDecimal (l : NumberLiteral) : Bool :=
  (!l.intDigits.isEmpty ||
    (match l.fracDigits with
     | none => false
     | some fs => !fs.isEmpty)) &&
  (match l.exponent with
   | none => true
   | some e => !e.digits.isEmpty)

end NumberLiteral

/-! ## The preserveAspectRatio parser -/

/-- The `Qt::AspectRatioMode` values. -/
inductive AspectRatioMode where
  | IgnoreAspectRatio
  | KeepAspectRatio
  | KeepAspectRatioByExpanding
deriving DecidableEq, Repr

/-- The captures of a match of the regular expression of the preserveAspectRatio
parser that the constructor reads: `cap(1)`, `cap(2)`, `cap(4)`, `cap(5)`, `cap(6)`. -/
structure AspectCaptures where
  cap1 : QString
  cap2 : QString
  cap4 : QString
  cap5 : QString
  cap6 : QString
deriving DecidableEq, Repr

namespace AspectRegExp

/-- A literal word of the pattern, matched without regard to case at the start of a
text: the text after the word. -/
def matchWord (word s : List Char) : Option (List Char) :=
  if (s.take word.length).map Char.toLower = word then some (s.drop word.length) else none

/-- An alternation of literal words at the start of a text, tried in order: the
text matched and the text after it. -/
def matchOneOf (words : List (List Char)) (s : List Char) :
    Option (List Char × List Char) :=
  match words with
  | [] => none
  | w :: ws =>
    match matchWord w s with
    | some rest => some (s.take w.length, rest)
    | none => matchOneOf ws s

/-- The piece `\s+` of the pattern at the start of a text: one whitespace character
at least, and all that follow; the text after them. -/
def matchSpaces (s : List Char) : Option (List Char) :=
  match s with
  | c :: cs => if QChar.isSpace c then some (cs.dropWhile QChar.isSpace) else none
  | [] => none

/-- The group `(none|(x(Min|Max|Mid)Y(Min|Max|Mid)))` at the start of a text: the
captures 2, 4 and 5 and the text after the group. -/
def matchAlignment (s : List Char) : Option (QString × QString × QString × List Char) :=
  match matchWord "none".toList s with
  | some rest => some (s.take 4, [], [], rest)
  | none => do
    let r1 ← matchWord "x".toList s
    let a ← matchOneOf ["min".toList, "max".toList, "mid".toList] r1
    let r3 ← matchWord "y".toList a.2
    let b ← matchOneOf ["min".toList, "max".toList, "mid".toList] r3
    pure (s.take 9, a.1, b.1, b.2)

/-- The pattern after its optional first group, at the start of a text:
`\s+(none|(x(Min|Max|Mid)Y(Min|Max|Mid)))\s+(meet|slice)?`. -/
def matchAfterDefer (cap1 : QString) (s : List Char) : Option AspectCaptures := do
  let r1 ← matchSpaces s
  let al ← matchAlignment r1
  let r3 ← matchSpaces al.2.2.2
  let cap6 :=
    match matchOneOf ["meet".toList, "slice".toList] r3 with
    | some m => m.1
    | none => []
  pure ⟨cap1, al.1, al.2.1, al.2.2.1, cap6⟩

/-- The whole pattern
`(defer)?\s+(none|(x(Min|Max|Mid)Y(Min|Max|Mid)))\s+(meet|slice)?`, case
insensitive, at the start of a text: the optional group is tried first. -/
def matchHere (s : List Char) : Option AspectCaptures :=
  match matchWord "defer".toList s with
  | some rest =>
    match matchAfterDefer (s.take 5) rest with
    | some m => some m
    | none => matchAfterDefer [] s
  | none => matchAfterDefer [] s

/-- The `QRegExp::indexIn` call for the pattern: the captures of the leftmost match,
`none` when the index is `-1`. -/
def indexIn : List Char → Option AspectCaptures
  | [] => matchHere []
  | c :: cs =>
    match matchHere (c :: cs) with
    | some m => some m
    | none => indexIn cs

end AspectRegExp

namespace SvgUtil

/-- The enumeration `PreserveAspectRatioParser::Alignment`. -/
inductive Alignment where
  | Min
  | Middle
  | Max
deriving DecidableEq, Repr

/-- The members of `SvgUtil::PreserveAspectRatioParser`. -/
structure PreserveAspectRatioParser where
  defer : Bool
  mode : AspectRatioMode
  xAlignment : Alignment
  yAlignment : Alignment
deriving DecidableEq, Repr

namespace PreserveAspectRatioParser

/-- The function `PreserveAspectRatioParser::alignmentFromString`. -/
def alignmentFromString (str : QString) : Alignment :=
  if str = "max".toList then Alignment.Max
  else if str = "mid".toList then Alignment.Middle
  else Alignment.Min

/-- The function `PreserveAspectRatioParser::alignedValue`. -/
def alignedValue (min max : ℚ) (alignment : Alignment) : ℚ :=
  match alignment with
  | Alignment.Min => min
  | Alignment.Middle => (1 / 2) * (min + max)
  | Alignment.Max => max

/-- The function `PreserveAspectRatioParser::rectAnchorPoint`. -/
def rectAnchorPoint (p : PreserveAspectRatioParser) (rc : QRectF) : QPointF :=
  ⟨alignedValue rc.x (rc.x + rc.width) p.xAlignment,
   alignedValue rc.y (rc.y + rc.height) p.yAlignment⟩

/-- The constructor `PreserveAspectRatioParser(const QString &str)`. The default
member initialisers of the class are declared in `SvgUtil.h`, which is not among the
sources: they are the parameter `init`. -/
def construct (init : PreserveAspectRatioParser) (str : QString) :
    PreserveAspectRatioParser :=
  match AspectRegExp.indexIn (QString.toLower str) with
  | some m =>
    let p := if m.cap1 = "defer".toList then { init with defer := true } else init
    if m.cap2 ≠ "none".toList then
      { p with
        xAlignment := alignmentFromString m.cap4
        yAlignment := alignmentFromString m.cap5
        mode :=
          if m.cap6 = "slice".toList then AspectRatioMode.KeepAspectRatioByExpanding
          else AspectRatioMode.KeepAspectRatio }
    else p
  | none => init

/-- The spelling of an alignment in an alignment token: `Min`, `Mid` or `Max`. -/
def alignmentToken : Alignment → QString
  | Alignment.Min => "Min".toList
  | Alignment.Middle => "Mid".toList
  | Alignment.Max => "Max".toList

/-- The text `lead xAYB tail` of an aspect ratio attribute, for the alignments `a` on
the x axis and `b` on the y axis, with the text `lead` before the alignment token
and the text `tail` after it. -/
def specText (lead : QString) (a b : Alignment) (tail : QString) : QString :=
  lead ++ "x".toList ++ alignmentToken a ++ "Y".toList ++ alignmentToken b ++ tail

end PreserveAspectRatioParser

end SvgUtil

/-! ## The viewBox resolver -/

namespace QString

/-- The scan of `QString::remove(const QString &)` for a string of two characters
`a b`, with `fuel` steps: an occurrence at the start is dropped, any other character
is kept. -/
def removePairAux (a b : Char) : Nat → QString → QString
  | 0, s => s
  | _ + 1, [] => []
  | _ + 1, [c] => [c]
  | fuel + 1, c :: d :: rest =>
    if c = a ∧ d = b then removePairAux a b fuel rest
    else c :: removePairAux a b fuel (d :: rest)

/-- The `QString::remove(const QString &)` call for a string of two characters
`a b`: every occurrence is removed, from left to right. -/
def removePair (a b : Char) (s : QString) : QString := removePairAux a b s.length s

/-- The `QString::replace(QChar before, QChar after)` call. -/
def replace (s : QString) (before after : Char) : QString :=
  s.map (fun c => if c = before then after else c)

/-- The `QString::split(QChar sep)` call with its default behaviour: empty parts
are kept. -/
def splitKeepEmpty (sep : Char) (s : QString) : QStringList :=
  s.splitOnP (fun c => c == sep)

/-- The `QString::toFloat` call, on decimal text; the rounding to single precision
is not modelled. -/
def toFloat (s : QString) : ℚ := toDouble s

end QString

namespace QTransform

/-- The `QTransform::fromTranslate` call. -/
def fromTranslate (dx dy : ℚ) : QTransform := ⟨1, 0, 0, 1, dx, dy⟩

/-- The `QTransform::fromScale` call. -/
def fromScale (sx sy : ℚ) : QTransform := ⟨sx, 0, 0, sy, 0, 0⟩

end QTransform

/-- The part of a `KoXmlElement` the code reads: the tag name and the attributes. -/
structure KoXmlElement where
  tagName : QString
  attributes : List (QString × QString)

/-- The `KoXmlElement::attribute` call: the value of the attribute, the empty
string when the element has no such attribute. -/
def KoXmlElement.attribute (e : KoXmlElement) (name : QString) : QString :=
  match e.attributes.lookup name with
  | some v => v
  | none => []

namespace SvgUtil

/-- What a call of `parseViewBox` leaves: the value returned, and the values of
`*_viewRect` and `*_viewTransform` after the call; the transform is `none` when one
of its coefficients is the result of a division by zero. -/
structure ViewBoxResult where
  result : Bool
  viewRect : QRectF
  viewTransform : Option QTransform

/-- The tokens of a viewBox attribute: `px` is removed, commas become blanks, the
text is simplified and split at the blanks. -/
def viewBoxPoints (viewBoxStr : QString) : QStringList :=
  QString.splitKeepEmpty ' '
    (QString.simplified (QString.replace (QString.removePair 'p' 'x' viewBoxStr) ',' ' '))

/-- The rectangle `parseViewBox` reads from a viewBox attribute, when the attribute
has four tokens: the four setters are called on a default constructed `QRectF`. -/
def viewBoxRect (viewBoxStr : QString) : Option QRectF :=
  match viewBoxPoints viewBoxStr with
  | [p0, p1, p2, p3] =>
    some (((((⟨0, 0, 0, 0⟩ : QRectF).setX (fromUserSpace (QString.toFloat p0))).setY
      (fromUserSpace (QString.toFloat p1))).setWidth
      (fromUserSpace (QString.toFloat p2))).setHeight (fromUserSpace (QString.toFloat p3)))
  | _ => none

/-- The transform `parseViewBox` builds first: the translation by `(-x, -y)`, then
the scaling by the two quotients of the sizes. -/
def baselineTransform (viewBoxRect elementBounds : QRectF) : Option QTransform := do
  let sx ← (QReal.div elementBounds.width viewBoxRect.width).toOption
  let sy ← (QReal.div elementBounds.height viewBoxRect.height).toOption
  pure ((QTransform.fromTranslate (-viewBoxRect.x) (-viewBoxRect.y)).mul
    (QTransform.fromScale sx sy))

/-- The uniform scale of the aspect ratio branch of `parseViewBox`. -/
def uniformScale (p : PreserveAspectRatioParser) (viewBoxRect elementBounds : QRectF) :
    QReal :=
  let tan1 := QReal.div viewBoxRect.height viewBoxRect.width
  let tan2 := QReal.div elementBounds.height elementBounds.width
  if xor (decide (p.mode = AspectRatioMode.KeepAspectRatioByExpanding)) (QReal.gt tan1 tan2)
  then QReal.div elementBounds.height viewBoxRect.height
  else QReal.div elementBounds.width viewBoxRect.width

/-- The transform of the aspect ratio branch of `parseViewBox`: the translation by
`(-x, -y)`, the uniform scaling, and the translation that brings the anchor of the
viewBox onto the anchor of the element bounds. -/
def aspectTransform (p : PreserveAspectRatioParser) (viewBoxRect elementBounds : QRectF) :
    Option QTransform := do
  let u ← (uniformScale p viewBoxRect elementBounds).toOption
  let viewBoxTransform :=
    (QTransform.fromTranslate (-viewBoxRect.x) (-viewBoxRect.y)).mul (QTransform.fromScale u u)
  let viewBoxAnchor := viewBoxTransform.map (p.rectAnchorPoint viewBoxRect)
  let elementAnchor := p.rectAnchorPoint elementBounds
  let offset : QPointF := ⟨elementAnchor.x - viewBoxAnchor.x, elementAnchor.y - viewBoxAnchor.y⟩
  pure (viewBoxTransform.mul (QTransform.fromTranslate offset.x offset.y))

/-- The transform `parseViewBox` stores: the baseline transform, replaced by the
transform of the aspect ratio branch when the preserveAspectRatio attribute is not
empty and its mode is not `IgnoreAspectRatio`. The branch for `defer` on an `image`
element is empty. -/
def viewBoxTransform (init : PreserveAspectRatioParser) (e : KoXmlElement)
    (viewBoxRect elementBounds : QRectF) : Option QTransform :=
  let aspectString := e.attribute "preserveAspectRatio".toList
  if !aspectString.isEmpty then
    let p := PreserveAspectRatioParser.construct init aspectString
    if p.mode ≠ AspectRatioMode.IgnoreAspectRatio then aspectTransform p viewBoxRect elementBounds
    else baselineTransform viewBoxRect elementBounds
  else baselineTransform viewBoxRect elementBounds

/-- The function `SvgUtil::parseViewBox`; `viewRect` and `viewTransform` are the
values of `*_viewRect` and `*_viewTransform` before the call, `init` stands for the
default members of `PreserveAspectRatioParser`. -/
def parseViewBox (init : PreserveAspectRatioParser) (e : KoXmlElement) (elementBounds : QRectF)
    (viewRect : QRectF) (viewTransform : QTransform) : ViewBoxResult :=
  let viewBoxStr := e.attribute "viewBox".toList
  if viewBoxStr.isEmpty then ⟨false, viewRect, some viewTransform⟩
  else
    match viewBoxRect viewBoxStr with
    | some viewBoxRect =>
      ⟨true, viewBoxRect, viewBoxTransform init e viewBoxRect elementBounds⟩
    | none => ⟨false, viewRect, some viewTransform⟩

end SvgUtil

namespace SvgUtil

/-- The words of a viewBox attribute: the maximal runs without whitespace of the
text once `px` is removed and the commas are replaced by blanks. -/
def viewBoxWords (viewBoxStr : QString) : QStringList :=
  QString.split QChar.isSpace (QString.replace (QString.removePair 'p' 'x' viewBoxStr) ',' ' ')

end SvgUtil

/-! ## Properties -/

open SvgUtil QString

/-! ### Splitting and simplifying texts -/

namespace QString

theorem split_nil (p : Char → Bool) : split p [] = [] := by
  simp [split]

theorem split_cons_sep (p : Char → Bool) (c : Char) (s : QString) (hc : p c = true) :
    split p (c :: s) = split p s := by
  simp [split, List.splitOnP_cons, hc]

theorem splitOnP_append_sep (p : Char → Bool) (u : List Char) (c : Char) (v : List Char)
    (hc : p c = true) :
    List.splitOnP p (u ++ c :: v) = List.splitOnP p u ++ List.splitOnP p v := by
  induction u with
  | nil => simp [List.splitOnP_cons, hc]
  | cons x u ih =>
    simp only [List.cons_append, List.splitOnP_cons, ih]
    by_cases hx : p x = true
    · simp [hx]
    · simp only [hx, if_false]
      cases hu : List.splitOnP p u with
      | nil => exact absurd hu (List.splitOnP_ne_nil p u)
      | cons w ws => simp

theorem split_append_sep (p : Char → Bool) (u : QString) (c : Char) (v : QString)
    (hc : p c = true) : split p (u ++ c :: v) = split p u ++ split p v := by
  simp [split, splitOnP_append_sep p u c v hc]

theorem split_token (p : Char → Bool) (w : QString) (hne : w ≠ [])
    (hw : ∀ c ∈ w, p c = false) : split p w = [w] := by
  have h : List.splitOnP p w = [w] := by
    apply List.splitOnP_eq_single
    simpa using hw
  cases w with
  | nil => exact absurd rfl hne
  | cons c cs => simp [split, h]

theorem split_seps_append (p : Char → Bool) (pre s : QString) (hpre : ∀ c ∈ pre, p c = true) :
    split p (pre ++ s) = split p s := by
  induction pre with
  | nil => rfl
  | cons c cs ih =>
    rw [List.cons_append, split_cons_sep p c _ (hpre c (List.mem_cons_self c cs))]
    exact ih (fun d hd => hpre d (List.mem_cons_of_mem c hd))

theorem intercalate_cons_cons (w w2 : QString) (ws : List QString) :
    [' '].intercalate (w :: w2 :: ws) = w ++ ' ' :: [' '].intercalate (w2 :: ws) := by
  simp [List.intercalate, List.intersperse]

theorem intercalate_single (w : QString) : [' '].intercalate [w] = w := by
  simp [List.intercalate, List.intersperse]

end QString

namespace QString

theorem split_isSpace_words (ws : List QString) (h : ∀ w ∈ ws, IsWord w) :
    split QChar.isSpace ([' '].intercalate ws) = ws := by
  induction ws with
  | nil => simp [List.intercalate, split]
  | cons w ws ih =>
    cases ws with
    | nil =>
      rw [intercalate_single]
      exact split_token _ w (h w (List.mem_singleton_self w)).1 (h w (List.mem_singleton_self w)).2
    | cons w2 ws =>
      rw [intercalate_cons_cons, split_append_sep _ _ _ _ (by decide),
        ih (fun x hx => h x (List.mem_cons_of_mem w hx)),
        split_token _ w (h w (List.mem_cons_self w _)).1 (h w (List.mem_cons_self w _)).2]
      rfl

theorem simplified_words (pre : QString) (ws : List QString)
    (hpre : ∀ c ∈ pre, QChar.isSpace c = true) (h : ∀ w ∈ ws, IsWord w) :
    simplified (pre ++ [' '].intercalate ws) = [' '].intercalate ws := by
  unfold simplified
  rw [split_seps_append _ _ _ hpre, split_isSpace_words ws h]

end QString

/-! ### The chunks of a transform list -/

namespace SvgUtil

theorem IsPiece.isWord {w : QString} (h : IsPiece w) : QString.IsWord w :=
  ⟨h.1, fun c hc => (h.2 c hc).1⟩

theorem IsParam.isPiece {w : QString} (h : IsParam w) : IsPiece w :=
  ⟨h.1, fun c hc => ⟨(h.2 c hc).1, (h.2 c hc).2.1⟩⟩

theorem IsParam.not_sep {w : QString} (h : IsParam w) : ∀ c ∈ w, isParamSep c = false := by
  intro c hc
  obtain ⟨h1, h2, _, h4⟩ := h.2 c hc
  have h5 : c ≠ ' ' := by
    rintro rfl
    exact absurd h1 (by decide)
  simp [isParamSep, h2, h4, h5]

theorem IsParam.not_close {w : QString} (h : IsParam w) :
    ∀ c ∈ w, (c == ')') = false := by
  intro c hc
  simpa using (h.2 c hc).2.2.1

theorem mem_intercalate {c : Char} {ws : List QString} (h : c ∈ [' '].intercalate ws) :
    c = ' ' ∨ ∃ w ∈ ws, c ∈ w := by
  induction ws with
  | nil => simp [List.intercalate] at h
  | cons w ws ih =>
    cases ws with
    | nil =>
      rw [QString.intercalate_single] at h
      exact Or.inr ⟨w, List.mem_singleton_self w, h⟩
    | cons w2 ws =>
      rw [QString.intercalate_cons_cons, List.mem_append, List.mem_cons] at h
      rcases h with h | h | h
      · exact Or.inr ⟨w, List.mem_cons_self w _, h⟩
      · exact Or.inl h
      · rcases ih h with h | ⟨x, hx, hcx⟩
        · exact Or.inl h
        · exact Or.inr ⟨x, List.mem_cons_of_mem w hx, hcx⟩

theorem intercalate_append_head (x w : QString) (ws : List QString) :
    [' '].intercalate ((x ++ w) :: ws) = x ++ [' '].intercalate (w :: ws) := by
  cases ws with
  | nil => simp [QString.intercalate_single]
  | cons w2 ws => simp [QString.intercalate_cons_cons]

theorem intercalate_ne_nil (w : QString) (ws : List QString) (h : w ≠ []) :
    [' '].intercalate (w :: ws) ≠ [] := by
  cases ws with
  | nil => simpa [QString.intercalate_single] using h
  | cons w2 ws => simp [QString.intercalate_cons_cons, h]

/-- One chunk `head(words`: the pieces the loop body works with. -/
theorem parseSubtransform_chunk (lm : Libm) (r : QTransform) (pre head w : QString)
    (ws : List QString) (hpre : ∀ c ∈ pre, QChar.isSpace c = true) (hhead : IsPiece head)
    (hw : ∀ x ∈ w :: ws, IsPiece x) :
    parseSubtransform lm r (pre ++ head ++ '(' :: [' '].intercalate (w :: ws)) =
      applyCommand lm r (commandName head)
        (QString.split isParamSep ([' '].intercalate (w :: ws))) := by
  have hw1 : IsPiece w := hw w (List.mem_cons_self w ws)
  have hwords : ∀ x ∈ (head ++ '(' :: w) :: ws, QString.IsWord x := by
    intro x hx
    rcases List.mem_cons.1 hx with rfl | hx
    · refine ⟨by simp, ?_⟩
      intro c hc
      rcases List.mem_append.1 hc with hc | hc
      · exact (hhead.2 c hc).1
      · rcases List.mem_cons.1 hc with rfl | hc
        · decide
        · exact (hw1.2 c hc).1
    · exact (hw x (List.mem_cons_of_mem w hx)).isWord
  have hJ : ∀ c ∈ [' '].intercalate (w :: ws), (c == '(') = false := by
    intro c hc
    rcases mem_intercalate hc with rfl | ⟨x, hx, hcx⟩
    · decide
    · simpa using ((hw x hx).2 c hcx).2
  have hcat : [' '].intercalate ((head ++ '(' :: w) :: ws) =
      head ++ '(' :: [' '].intercalate (w :: ws) := by
    cases ws with
    | nil => simp [QString.intercalate_single]
    | cons w2 ws => simp [QString.intercalate_cons_cons]
  have h1 : QString.simplified (pre ++ head ++ '(' :: [' '].intercalate (w :: ws)) =
      head ++ '(' :: [' '].intercalate (w :: ws) := by
    have e : pre ++ head ++ '(' :: [' '].intercalate (w :: ws) =
        pre ++ [' '].intercalate ((head ++ '(' :: w) :: ws) := by
      rw [hcat]; simp
    rw [e, QString.simplified_words pre _ hpre hwords, hcat]
  have h2 : QString.split (fun c => c == '(') (head ++ '(' :: [' '].intercalate (w :: ws)) =
      [head, [' '].intercalate (w :: ws)] := by
    rw [QString.split_append_sep _ _ _ _ (by decide),
      QString.split_token _ head hhead.1 (fun c hc => by simpa using (hhead.2 c hc).2),
      QString.split_token _ _ (intercalate_ne_nil w ws hw1.1) hJ]
    rfl
  have h3 : QString.simplified ([' '].intercalate (w :: ws)) = [' '].intercalate (w :: ws) := by
    have := QString.simplified_words [] (w :: ws) (by simp) (fun x hx => (hw x hx).isWord)
    simpa using this
  unfold parseSubtransform
  rw [h1, h2]
  simp only [h3]

end SvgUtil

namespace SvgUtil

theorem isParam_of_isParamToken {w : QString} (h : isParamToken w = true) : IsParam w := by
  simp only [isParamToken, Bool.and_eq_true, Bool.not_eq_true', List.all_eq_true,
    bne_iff_ne, ne_eq, List.isEmpty_eq_true] at h
  refine ⟨by simpa using h.1, fun c hc => ?_⟩
  have := h.2 c hc
  simp only [Bool.not_eq_true', Bool.and_eq_true] at this
  tauto

theorem forall_isSpace_of_isBlank {w : QString} (h : isBlank w = true) :
    ∀ c ∈ w, QChar.isSpace c = true := by
  simpa [isBlank] using h

theorem split_params_one {a : QString} (ha : IsParam a) :
    QString.split isParamSep a = [a] :=
  QString.split_token _ a ha.1 ha.not_sep

theorem split_params_comma {a : QString} (rest : QString) (ha : IsParam a) :
    QString.split isParamSep (a ++ ',' :: rest) = a :: QString.split isParamSep rest := by
  rw [QString.split_append_sep _ _ _ _ (by decide), split_params_one ha]
  rfl

theorem split_params_space {a : QString} (rest : QString) (ha : IsParam a) :
    QString.split isParamSep (a ++ ' ' :: rest) = a :: QString.split isParamSep rest := by
  rw [QString.split_append_sep _ _ _ _ (by decide), split_params_one ha]
  rfl

theorem isPiece_comma {a b : QString} (ha : IsParam a) (hb : IsParam b) :
    IsPiece (a ++ ',' :: b) := by
  refine ⟨by simp, fun c hc => ?_⟩
  rcases List.mem_append.1 hc with hc | hc
  · exact ⟨(ha.2 c hc).1, (ha.2 c hc).2.1⟩
  · rcases List.mem_cons.1 hc with rfl | hc
    · exact ⟨by decide, by decide⟩
    · exact ⟨(hb.2 c hc).1, (hb.2 c hc).2.1⟩

theorem forall_isPiece_single {w : QString} (h : IsPiece w) : ∀ x ∈ [w], IsPiece x := by
  intro x hx
  rw [List.mem_singleton.1 hx]
  exact h

theorem isPiece_translate : IsPiece "translate".toList :=
  ⟨by decide, by decide⟩

theorem isPiece_scale : IsPiece "scale".toList :=
  ⟨by decide, by decide⟩

theorem commandName_translate : commandName "translate".toList = "translate".toList := by
  decide

theorem commandName_scale : commandName "scale".toList = "scale".toList := by
  decide

theorem parseSubtransform_primitive (lm : Libm) (r : QTransform) (pre : QString)
    (p : Primitive) (hpre : isBlank pre = true) (hp : p.wellFormed = true) :
    parseSubtransform lm r (pre ++ p.body) = some (p.matrix.mul r) := by
  have hb := forall_isSpace_of_isBlank hpre
  cases p with
  | translate tx ty =>
    simp only [Primitive.wellFormed, Bool.and_eq_true] at hp
    have hx := isParam_of_isParamToken hp.1
    have hy := isParam_of_isParamToken hp.2
    have e : pre ++ (Primitive.translate tx ty).body =
        pre ++ "translate".toList ++ '(' :: [' '].intercalate [tx ++ ',' :: ty] := by
      simp [Primitive.body, QString.intercalate_single]
    rw [e, parseSubtransform_chunk lm r pre _ _ [] hb isPiece_translate
      (forall_isPiece_single (isPiece_comma hx hy)), commandName_translate,
      QString.intercalate_single, split_params_comma ty hx, split_params_one hy]
    simp [applyCommand, paramAt, fromUserSpace, Primitive.matrix, QTransform.translate,
      QTransform.mul]
    constructor <;> ring
  | translate1 tx =>
    have hx := isParam_of_isParamToken hp
    have e : pre ++ (Primitive.translate1 tx).body =
        pre ++ "translate".toList ++ '(' :: [' '].intercalate [tx] := by
      simp [Primitive.body, QString.intercalate_single]
    rw [e, parseSubtransform_chunk lm r pre _ _ [] hb isPiece_translate
      (forall_isPiece_single hx.isPiece), commandName_translate,
      QString.intercalate_single, split_params_one hx]
    simp [applyCommand, paramAt, fromUserSpace, Primitive.matrix, QTransform.translate,
      QTransform.mul]
    constructor <;> ring
  | scale sx sy =>
    simp only [Primitive.wellFormed, Bool.and_eq_true] at hp
    have hx := isParam_of_isParamToken hp.1
    have hy := isParam_of_isParamToken hp.2
    have e : pre ++ (Primitive.scale sx sy).body =
        pre ++ "scale".toList ++ '(' :: [' '].intercalate [sx ++ ',' :: sy] := by
      simp [Primitive.body, QString.intercalate_single]
    rw [e, parseSubtransform_chunk lm r pre _ _ [] hb isPiece_scale
      (forall_isPiece_single (isPiece_comma hx hy)), commandName_scale,
      QString.intercalate_single, split_params_comma sy hx, split_params_one hy]
    simp [applyCommand, paramAt, Primitive.matrix, QTransform.scale, QTransform.mul]
    refine ⟨?_, ?_, ?_, ?_⟩ <;> ring
  | scale1 s =>
    have hx := isParam_of_isParamToken hp
    have e : pre ++ (Primitive.scale1 s).body =
        pre ++ "scale".toList ++ '(' :: [' '].intercalate [s] := by
      simp [Primitive.body, QString.intercalate_single]
    rw [e, parseSubtransform_chunk lm r pre _ _ [] hb isPiece_scale
      (forall_isPiece_single hx.isPiece), commandName_scale,
      QString.intercalate_single, split_params_one hx]
    simp [applyCommand, paramAt, Primitive.matrix, QTransform.scale, QTransform.mul]
    refine ⟨?_, ?_, ?_, ?_⟩ <;> ring

end SvgUtil

namespace SvgUtil

theorem QTransform_map_mul (m r : QTransform) (pt : QPointF) :
    (m.mul r).map pt = r.map (m.map pt) := by
  simp only [QTransform.map, QTransform.mul, QPointF.mk.injEq]
  constructor <;> ring

theorem Primitive_matrix_map (p : Primitive) (pt : QPointF) : p.matrix.map pt = p.act pt := by
  cases p <;> simp [Primitive.matrix, Primitive.act, QTransform.map]

theorem QTransform_map_identity (pt : QPointF) : QTransform.identity.map pt = pt := by
  simp [QTransform.map, QTransform.identity]

theorem body_no_close (pre : QString) (p : Primitive) (hpre : isBlank pre = true)
    (hp : p.wellFormed = true) :
    pre ++ p.body ≠ [] ∧ ∀ c ∈ pre ++ p.body, (c == ')') = false := by
  have hb := forall_isSpace_of_isBlank hpre
  have hblank : ∀ c ∈ pre, (c == ')') = false := by
    intro c hc
    have h1 := hb c hc
    by_cases h : c = ')'
    · subst h; exact absurd h1 (by decide)
    · simpa using h
  cases p with
  | translate tx ty =>
    simp only [Primitive.wellFormed, Bool.and_eq_true] at hp
    have hx := (isParam_of_isParamToken hp.1).not_close
    have hy := (isParam_of_isParamToken hp.2).not_close
    refine ⟨by simp [Primitive.body], fun c hc => ?_⟩
    simp only [Primitive.body, List.mem_append] at hc
    rcases hc with hc | ((hc | hc) | hc) | hc
    · exact hblank c hc
    · revert c; decide
    · exact hx c hc
    · revert c; decide
    · exact hy c hc
  | translate1 tx =>
    have hx := (isParam_of_isParamToken hp).not_close
    refine ⟨by simp [Primitive.body], fun c hc => ?_⟩
    simp only [Primitive.body, List.mem_append] at hc
    rcases hc with hc | hc | hc
    · exact hblank c hc
    · revert c; decide
    · exact hx c hc
  | scale sx sy =>
    simp only [Primitive.wellFormed, Bool.and_eq_true] at hp
    have hx := (isParam_of_isParamToken hp.1).not_close
    have hy := (isParam_of_isParamToken hp.2).not_close
    refine ⟨by simp [Primitive.body], fun c hc => ?_⟩
    simp only [Primitive.body, List.mem_append] at hc
    rcases hc with hc | ((hc | hc) | hc) | hc
    · exact hblank c hc
    · revert c; decide
    · exact hx c hc
    · revert c; decide
    · exact hy c hc
  | scale1 s =>
    have hx := (isParam_of_isParamToken hp).not_close
    refine ⟨by simp [Primitive.body], fun c hc => ?_⟩
    simp only [Primitive.body, List.mem_append] at hc
    rcases hc with hc | hc | hc
    · exact hblank c hc
    · revert c; decide
    · exact hx c hc

theorem foldlM_transformListText (lm : Libm) (items : List (QString × Primitive))
    (h : ∀ it ∈ items, isBlank it.1 = true ∧ it.2.wellFormed = true) (r : QTransform) :
    (QString.split (fun c => c == ')') (transformListText items)).foldlM
        (parseSubtransform lm) r =
      some (items.foldl (fun acc it => it.2.matrix.mul acc) r) := by
  induction items generalizing r with
  | nil => simp [transformListText, QString.split_nil]
  | cons it rest ih =>
    obtain ⟨ws, p⟩ := it
    have hit := h (ws, p) (List.mem_cons_self _ _)
    have hne := body_no_close ws p hit.1 hit.2
    have e : transformListText ((ws, p) :: rest) =
        (ws ++ p.body) ++ ')' :: transformListText rest := by
      simp [transformListText]
    rw [e, QString.split_append_sep _ _ _ _ (by decide),
      QString.split_token _ _ hne.1 hne.2]
    simp only [List.singleton_append, List.foldlM_cons, List.foldl_cons]
    rw [parseSubtransform_primitive lm r ws p hit.1 hit.2]
    exact ih (fun x hx => h x (List.mem_cons_of_mem _ hx)) _

theorem map_foldl_matrix (items : List (QString × Primitive)) (r : QTransform)
    (pt : QPointF) :
    (items.foldl (fun acc it => it.2.matrix.mul acc) r).map pt =
      r.map (items.foldr (fun it q => it.2.act q) pt) := by
  induction items generalizing r pt with
  | nil => rfl
  | cons it rest ih =>
    simp only [List.foldl_cons, List.foldr_cons]
    rw [ih, QTransform_map_mul, Primitive_matrix_map]

end SvgUtil

/-! ### The transform list parser -/

/-- C1: a whitespace separated list of translate and scale primitives parses to the
composition of the primitives in source order, each appended to the product so far,
so that the first primitive listed acts last on a point; the text
`translate(tx,ty) scale(s)` maps `(x, y)` to `(s * x + tx, s * y + ty)`, and
`translate(10,20) scale(2)` maps `(0, 0)` to `(10, 20)` and `(1, 0)` to `(12, 20)`. -/
theorem C1_parseTransform_translate_scale (lm : Libm) :
    (∀ items : List (QString × SvgUtil.Primitive),
      (∀ it ∈ items, SvgUtil.isBlank it.1 = true ∧ it.2.wellFormed = true) →
      SvgUtil.parseTransform lm (SvgUtil.transformListText items) =
          some (SvgUtil.composeList items) ∧
        ∀ pt : QPointF, (SvgUtil.composeList items).map pt =
          items.foldr (fun it q => it.2.act q) pt) ∧
    (∀ tx ty s : QString, SvgUtil.isParamToken tx = true → SvgUtil.isParamToken ty = true →
      SvgUtil.isParamToken s = true →
      ∃ t : QTransform,
        SvgUtil.parseTransform lm
          ("translate(".toList ++ tx ++ ",".toList ++ ty ++ ") scale(".toList ++ s ++
            ")".toList) = some t ∧
        ∀ x y : ℚ, t.map ⟨x, y⟩ =
          ⟨QString.toDouble s * x + QString.toDouble tx,
           QString.toDouble s * y + QString.toDouble ty⟩) ∧
    (∃ t : QTransform,
      SvgUtil.parseTransform lm "translate(10,20) scale(2)".toList = some t ∧
        t.map ⟨0, 0⟩ = ⟨10, 20⟩ ∧ t.map ⟨1, 0⟩ = ⟨12, 20⟩) := by
  have part1 : ∀ items : List (QString × SvgUtil.Primitive),
      (∀ it ∈ items, SvgUtil.isBlank it.1 = true ∧ it.2.wellFormed = true) →
      SvgUtil.parseTransform lm (SvgUtil.transformListText items) =
          some (SvgUtil.composeList items) ∧
        ∀ pt : QPointF, (SvgUtil.composeList items).map pt =
          items.foldr (fun it q => it.2.act q) pt := by
    intro items h
    refine ⟨SvgUtil.foldlM_transformListText lm items h _, fun pt => ?_⟩
    unfold SvgUtil.composeList
    rw [SvgUtil.map_foldl_matrix, SvgUtil.QTransform_map_identity]
  have part2 : ∀ tx ty s : QString, SvgUtil.isParamToken tx = true →
      SvgUtil.isParamToken ty = true → SvgUtil.isParamToken s = true →
      ∃ t : QTransform,
        SvgUtil.parseTransform lm
          ("translate(".toList ++ tx ++ ",".toList ++ ty ++ ") scale(".toList ++ s ++
            ")".toList) = some t ∧
        ∀ x y : ℚ, t.map ⟨x, y⟩ =
          ⟨QString.toDouble s * x + QString.toDouble tx,
           QString.toDouble s * y + QString.toDouble ty⟩ := by
    intro tx ty s htx hty hs
    have h := part1 [([], SvgUtil.Primitive.translate tx ty), ([' '], SvgUtil.Primitive.scale1 s)]
      (by
        intro it hit
        simp only [List.mem_cons, List.mem_singleton, List.not_mem_nil, or_false] at hit
        rcases hit with rfl | rfl
        · exact ⟨rfl, by simp [SvgUtil.Primitive.wellFormed, htx, hty]⟩
        · exact ⟨rfl, by simp [SvgUtil.Primitive.wellFormed, hs]⟩)
    refine ⟨SvgUtil.composeList
      [([], SvgUtil.Primitive.translate tx ty), ([' '], SvgUtil.Primitive.scale1 s)], ?_,
      fun x y => ?_⟩
    · have e : "translate(".toList ++ tx ++ ",".toList ++ ty ++ ") scale(".toList ++ s ++
          ")".toList = SvgUtil.transformListText
            [([], SvgUtil.Primitive.translate tx ty), ([' '], SvgUtil.Primitive.scale1 s)] := by
        simp [SvgUtil.transformListText, SvgUtil.Primitive.body]
      rw [e]
      exact h.1
    · rw [h.2]
      simp [SvgUtil.Primitive.act]
  refine ⟨part1, part2, ?_⟩
  obtain ⟨t, ht, hmap⟩ := part2 "10".toList "20".toList "2".toList (by decide) (by decide)
    (by decide)
  refine ⟨t, ht, ?_, ?_⟩
  · rw [hmap]
    have h10 : QString.toDouble "10".toList = 10 := by decide!
    have h20 : QString.toDouble "20".toList = 20 := by decide!
    have h2 : QString.toDouble "2".toList = 2 := by decide!
    rw [h10, h20, h2]; norm_num
  · rw [hmap]
    have h10 : QString.toDouble "10".toList = 10 := by decide!
    have h20 : QString.toDouble "20".toList = 20 := by decide!
    have h2 : QString.toDouble "2".toList = 2 := by decide!
    rw [h10, h20, h2]; norm_num

/-- C1 at a concrete input: the tokens `10`, `20` and `2` are parameter tokens, and
the text `translate(10,20) scale(2)` parses to a transform that maps `(x, y)` to
`(2 * x + 10, 2 * y + 20)`, the values read from the tokens. -/
theorem C1_parseTransform_translate_scale_witness :
    SvgUtil.isParamToken "10".toList = true ∧ SvgUtil.isParamToken "20".toList = true ∧
    SvgUtil.isParamToken "2".toList = true ∧
    ∃ t : QTransform,
      SvgUtil.parseTransform Libm.sample
        ("translate(".toList ++ "10".toList ++ ",".toList ++ "20".toList ++
          ") scale(".toList ++ "2".toList ++ ")".toList) = some t ∧
      ∀ x y : ℚ, t.map ⟨x, y⟩ =
        ⟨QString.toDouble "2".toList * x + QString.toDouble "10".toList,
         QString.toDouble "2".toList * y + QString.toDouble "20".toList⟩ :=
  ⟨by decide, by decide, by decide,
    (C1_parseTransform_translate_scale Libm.sample).2.1 "10".toList "20".toList "2".toList
      (by decide) (by decide) (by decide)⟩

/-- C2: the matrix primitive is not appended: `setMatrix` overwrites the transform
accumulated so far. `translate(10,20) matrix(1,0,0,1,0,0)` parses to the identity,
where appending the matrix to `translate(10,20)` gives the translation by `(10, 20)`;
`translate(10,20) matrix(2,0,0,2,0,0)` parses to the bare scaling, where appending
gives the scaling followed by the translation; the chunk ` matrix(2,0,0,2,0,0` gives
the same result whatever the transform accumulated before it. -/
theorem C2_matrix_overwrites (lm : Libm) :
    SvgUtil.parseTransform lm "translate(10,20)".toList = some ⟨1, 0, 0, 1, 10, 20⟩ ∧
    SvgUtil.parseTransform lm "translate(10,20) matrix(1,0,0,1,0,0)".toList =
      some QTransform.identity ∧
    QTransform.mul ⟨1, 0, 0, 1, 0, 0⟩ ⟨1, 0, 0, 1, 10, 20⟩ = ⟨1, 0, 0, 1, 10, 20⟩ ∧
    SvgUtil.parseTransform lm "translate(10,20) matrix(2,0,0,2,0,0)".toList =
      some ⟨2, 0, 0, 2, 0, 0⟩ ∧
    QTransform.mul ⟨2, 0, 0, 2, 0, 0⟩ ⟨1, 0, 0, 1, 10, 20⟩ = ⟨2, 0, 0, 2, 10, 20⟩ ∧
    (∀ r : QTransform,
      SvgUtil.parseSubtransform lm r " matrix(2,0,0,2,0,0".toList = some ⟨2, 0, 0, 2, 0, 0⟩) := by
  refine ⟨?_, ?_, ?_, ?_, ?_, ?_⟩
  · with_unfolding_all rfl
  · with_unfolding_all rfl
  · decide!
  · with_unfolding_all rfl
  · decide!
  · intro r
    with_unfolding_all rfl

/-- C3: a recognized function name with an empty parameter list is not skipped: the
parameter list of `translate(,)` and of `rotate(, ` is empty, and the code reads
`params[0]` all the same, outside the bounds of the list. -/
theorem C3_reads_missing_parameter (lm : Libm) :
    QString.split (fun c => c == '(') (QString.simplified "translate(,".toList) =
      ["translate".toList, ",".toList] ∧
    QString.split SvgUtil.isParamSep (QString.simplified ",".toList) = [] ∧
    SvgUtil.paramAt [] 0 = none ∧
    SvgUtil.parseTransform lm "translate(,)".toList = none ∧
    SvgUtil.parseTransform lm "rotate(, ".toList = none := by
  refine ⟨by decide, by decide, rfl, rfl, rfl⟩

/-- C6: a separator followed by a blank is not handled: the name token `, scale` is
trimmed before its leading comma is removed, which leaves ` scale`, a name that is
not recognized. `A,B` and `A;B` parse as `A B` does, but `A, B` and `A; B` lose
the primitive `B`. -/
theorem C6_separator_then_blank_drops_primitive (lm : Libm) :
    SvgUtil.parseTransform lm "translate(1,2) scale(2)".toList = some ⟨2, 0, 0, 2, 1, 2⟩ ∧
    SvgUtil.parseTransform lm "translate(1,2),scale(2)".toList = some ⟨2, 0, 0, 2, 1, 2⟩ ∧
    SvgUtil.parseTransform lm "translate(1,2);scale(2)".toList = some ⟨2, 0, 0, 2, 1, 2⟩ ∧
    SvgUtil.parseTransform lm "translate(1,2), scale(2)".toList = some ⟨1, 0, 0, 1, 1, 2⟩ ∧
    SvgUtil.parseTransform lm "translate(1,2); scale(2)".toList = some ⟨1, 0, 0, 1, 1, 2⟩ ∧
    SvgUtil.commandName ",scale".toList = "scale".toList ∧
    SvgUtil.commandName ", scale".toList = " scale".toList := by
  refine ⟨?_, ?_, ?_, ?_, ?_, by decide, by decide⟩ <;> with_unfolding_all rfl

namespace SvgUtil

theorem isPiece_comma_piece {a w : QString} (ha : IsParam a) (hw : IsPiece w) :
    IsPiece (a ++ ',' :: w) := by
  refine ⟨by simp, fun c hc => ?_⟩
  rcases List.mem_append.1 hc with hc | hc
  · exact ⟨(ha.2 c hc).1, (ha.2 c hc).2.1⟩
  · rcases List.mem_cons.1 hc with rfl | hc
    · exact ⟨by decide, by decide⟩
    · exact hw.2 c hc

theorem isPiece_rotate : IsPiece "rotate".toList :=
  ⟨by decide, by decide⟩

theorem commandName_rotate : commandName "rotate".toList = "rotate".toList := by
  decide

theorem split_close_single (chunk : QString) (hne : chunk ≠ [])
    (h : ∀ c ∈ chunk, (c == ')') = false) :
    QString.split (fun c => c == ')') (chunk ++ [')']) = [chunk] := by
  rw [QString.split_append_sep _ _ _ _ (by decide), QString.split_token _ _ hne h,
    QString.split_nil]
  rfl

/-- The text `rotate(a,cx,cy)` parses to the three calls of the rotate branch. -/
theorem parseTransform_rotate3 (lm : Libm) (a cx cy : QString) (ha : IsParam a)
    (hx : IsParam cx) (hy : IsParam cy) :
    parseTransform lm
        ("rotate(".toList ++ a ++ ",".toList ++ cx ++ ",".toList ++ cy ++ ")".toList) =
      some (QTransform.rotateAbout lm (QString.toDouble a) (QString.toDouble cx)
        (QString.toDouble cy)) := by
  have e : "rotate(".toList ++ a ++ ",".toList ++ cx ++ ",".toList ++ cy ++ ")".toList =
      ([] ++ "rotate".toList ++ '(' :: [' '].intercalate [a ++ ',' :: (cx ++ ',' :: cy)]) ++
        [')'] := by
    simp [QString.intercalate_single]
  have hpiece : IsPiece (a ++ ',' :: (cx ++ ',' :: cy)) :=
    isPiece_comma_piece ha (isPiece_comma_piece hx hy.isPiece)
  have hclose : ∀ c ∈ [] ++ "rotate".toList ++
      '(' :: [' '].intercalate [a ++ ',' :: (cx ++ ',' :: cy)], (c == ')') = false := by
    intro c hc
    simp only [QString.intercalate_single, List.nil_append, List.mem_append, List.mem_cons] at hc
    rcases hc with hc | rfl | hc | rfl | hc | rfl | hc
    · revert c; decide
    · decide
    · exact ha.not_close c hc
    · decide
    · exact hx.not_close c hc
    · decide
    · exact hy.not_close c hc
  unfold parseTransform
  rw [e, split_close_single _ (by simp) hclose]
  simp only [List.foldlM_cons, List.foldlM_nil]
  rw [parseSubtransform_chunk lm _ [] _ _ [] (by simp) isPiece_rotate
    (forall_isPiece_single hpiece), commandName_rotate, QString.intercalate_single,
    split_params_comma _ ha, split_params_comma _ hx, split_params_one hy]
  simp [applyCommand, paramAt, QTransform.rotateAbout]

theorem rotate_dx (lm : Libm) (t : QTransform) (a : ℚ) : (t.rotate lm a).dx = t.dx := by
  unfold QTransform.rotate
  split <;> rfl

theorem rotate_dy (lm : Libm) (t : QTransform) (a : ℚ) : (t.rotate lm a).dy = t.dy := by
  unfold QTransform.rotate
  split <;> rfl

/-- A rotation about a pivot leaves the pivot where it is. -/
theorem rotate_about_pivot_fixes (lm : Libm) (a x y : ℚ) :
    (QTransform.rotateAbout lm a x y).map ⟨x, y⟩ = ⟨x, y⟩ := by
  simp only [QTransform.rotateAbout, QTransform.map, QTransform.translate, rotate_dx, rotate_dy, QPointF.mk.injEq,
    QTransform.identity]
  constructor <;> ring

/-- The rotation by 90 degrees about a pivot. -/
theorem rotate90_about_pivot (lm : Libm) (x y px py : ℚ) :
    (QTransform.rotateAbout lm 90 x y).map ⟨px, py⟩ = ⟨x - (py - y), y + (px - x)⟩ := by
  simp [QTransform.rotateAbout, QTransform.map, QTransform.translate, QTransform.rotate, QTransform.sinCos,
    QTransform.identity]
  constructor <;> ring

end SvgUtil

/-- C5: the text `rotate(a,cx,cy)` parses to translate(cx,cy), rotate(a),
translate(-cx,-cy) appended in this order; the result maps the pivot `(cx, cy)` to
itself, and for an angle of 90 degrees it maps `(x, y)` to
`(cx - (y - cy), cy + (x - cx))`; `rotate(90,5,5)` maps `(5, 0)` to `(10, 5)`. -/
theorem C5_parseTransform_rotate_about_pivot (lm : Libm) (a cx cy : QString)
    (ha : SvgUtil.isParamToken a = true) (hx : SvgUtil.isParamToken cx = true)
    (hy : SvgUtil.isParamToken cy = true) :
    SvgUtil.parseTransform lm
        ("rotate(".toList ++ a ++ ",".toList ++ cx ++ ",".toList ++ cy ++ ")".toList) =
      some (QTransform.rotateAbout lm (QString.toDouble a) (QString.toDouble cx)
        (QString.toDouble cy)) ∧
    (QTransform.rotateAbout lm (QString.toDouble a) (QString.toDouble cx)
        (QString.toDouble cy)).map ⟨QString.toDouble cx, QString.toDouble cy⟩ =
      ⟨QString.toDouble cx, QString.toDouble cy⟩ ∧
    (QString.toDouble a = 90 → ∀ x y : ℚ,
      (QTransform.rotateAbout lm (QString.toDouble a) (QString.toDouble cx)
        (QString.toDouble cy)).map ⟨x, y⟩ =
      ⟨QString.toDouble cx - (y - QString.toDouble cy),
       QString.toDouble cy + (x - QString.toDouble cx)⟩) ∧
    SvgUtil.parseTransform lm "rotate(90,5,5)".toList =
      some (QTransform.rotateAbout lm 90 5 5) ∧
    (QTransform.rotateAbout lm 90 5 5).map ⟨5, 0⟩ = ⟨10, 5⟩ := by
  refine ⟨SvgUtil.parseTransform_rotate3 lm a cx cy (SvgUtil.isParam_of_isParamToken ha)
    (SvgUtil.isParam_of_isParamToken hx) (SvgUtil.isParam_of_isParamToken hy),
    SvgUtil.rotate_about_pivot_fixes lm _ _ _, ?_, ?_, ?_⟩
  · intro h90 x y
    rw [h90]
    exact SvgUtil.rotate90_about_pivot lm _ _ x y
  · have h := SvgUtil.parseTransform_rotate3 lm "90".toList "5".toList "5".toList
      (SvgUtil.isParam_of_isParamToken (by decide)) (SvgUtil.isParam_of_isParamToken (by decide))
      (SvgUtil.isParam_of_isParamToken (by decide))
    have h90 : QString.toDouble "90".toList = 90 := by decide!
    have h5 : QString.toDouble "5".toList = 5 := by decide!
    rw [h90, h5] at h
    exact h
  · rw [SvgUtil.rotate90_about_pivot]
    norm_num

/-- C5 at a concrete input: `90`, `5` and `5` are parameter tokens, the first one
reads as 90, and the transform parsed from `rotate(90,5,5)` maps every `(x, y)` to
`(5 - (y - 5), 5 + (x - 5))`. -/
theorem C5_parseTransform_rotate_about_pivot_witness :
    SvgUtil.isParamToken "90".toList = true ∧ SvgUtil.isParamToken "5".toList = true ∧
    QString.toDouble "90".toList = 90 ∧
    SvgUtil.parseTransform Libm.sample
        ("rotate(".toList ++ "90".toList ++ ",".toList ++ "5".toList ++ ",".toList ++
          "5".toList ++ ")".toList) =
      some (QTransform.rotateAbout Libm.sample (QString.toDouble "90".toList)
        (QString.toDouble "5".toList) (QString.toDouble "5".toList)) ∧
    ∀ x y : ℚ,
      (QTransform.rotateAbout Libm.sample (QString.toDouble "90".toList)
        (QString.toDouble "5".toList) (QString.toDouble "5".toList)).map ⟨x, y⟩ =
      ⟨QString.toDouble "5".toList - (y - QString.toDouble "5".toList),
       QString.toDouble "5".toList + (x - QString.toDouble "5".toList)⟩ :=
  ⟨by decide, by decide, by decide!,
    (C5_parseTransform_rotate_about_pivot Libm.sample "90".toList "5".toList "5".toList
      (by decide) (by decide) (by decide)).1,
    (C5_parseTransform_rotate_about_pivot Libm.sample "90".toList "5".toList "5".toList
      (by decide) (by decide) (by decide)).2.2.1 (by decide!)⟩

/-! ### The number formatter and the round trip -/

namespace QString

theorem lastDigits_length (n k : Nat) : (lastDigits n k).length = n := by
  induction n generalizing k with
  | zero => rfl
  | succ n ih => simp [lastDigits, ih]

theorem isDigit_digit (d : Nat) (hd : d < 10) : isDigit (Char.ofNat (48 + d)) = true := by
  interval_cases d <;> decide

theorem lastDigits_isDigit (n k : Nat) : ∀ c ∈ lastDigits n k, isDigit c = true := by
  induction n generalizing k with
  | zero => simp [lastDigits]
  | succ n ih =>
    intro c hc
    simp only [lastDigits, List.mem_append, List.mem_singleton] at hc
    rcases hc with hc | rfl
    · exact ih _ c hc
    · exact isDigit_digit _ (Nat.mod_lt _ (by norm_num))

theorem isNumberChar_of_isDigit {c : Char} (h : isDigit c = true) : isNumberChar c = true := by
  simp [isNumberChar, h]

theorem mem_stripTrailingZeros {c : Char} {l : List Char} (h : c ∈ stripTrailingZeros l) :
    c ∈ l := by
  unfold stripTrailingZeros at h
  rw [List.mem_reverse] at h
  exact List.mem_reverse.1 ((List.dropWhile_sublist _).subset h)


theorem fractionText_isNumberChar (ds : List Char) (h : ∀ c ∈ ds, isDigit c = true) :
    ∀ c ∈ fractionText ds, isNumberChar c = true := by
  intro c hc
  unfold fractionText at hc
  simp only at hc
  split_ifs at hc with h0
  · simp at hc
  · rcases List.mem_cons.1 hc with rfl | hc
    · decide
    · exact isNumberChar_of_isDigit (h c (mem_stripTrailingZeros hc))

theorem natDigits_isDigit (k : Nat) : ∀ c ∈ natDigits k, isDigit c = true :=
  lastDigits_isDigit _ k

theorem exponentText_isNumberChar (x : Int) : ∀ c ∈ exponentText x, isNumberChar c = true := by
  intro c hc
  unfold exponentText at hc
  rcases List.mem_cons.1 hc with rfl | hc
  · decide
  · rcases List.mem_cons.1 hc with rfl | hc
    · split_ifs <;> decide
    · split_ifs at hc
      · rcases List.mem_cons.1 hc with rfl | hc
        · decide
        · exact isNumberChar_of_isDigit (natDigits_isDigit _ c hc)
      · exact isNumberChar_of_isDigit (natDigits_isDigit _ c hc)

theorem significandText_isNumberChar (neg : Bool) (n : Nat) (x : Int) :
    ∀ c ∈ significandText neg n x, isNumberChar c = true := by
  intro c hc
  have hsix : ∀ d ∈ lastDigits 6 n, isDigit d = true := lastDigits_isDigit 6 n
  have hsign : ∀ d ∈ (if neg = true then ['-'] else []), isNumberChar d = true := by
    intro d hd
    cases neg
    · simp at hd
    · rw [List.mem_singleton.1 hd]; decide
  unfold significandText at hc
  simp only at hc
  by_cases h1 : x < -4 ∨ 6 ≤ x
  · rw [if_pos h1] at hc
    simp only [List.mem_append] at hc
    rcases hc with ((hc | hc) | hc) | hc
    · exact hsign c hc
    · exact isNumberChar_of_isDigit (hsix c (List.mem_of_mem_take hc))
    · exact fractionText_isNumberChar _ (fun d hd => hsix d (List.mem_of_mem_drop hd)) c hc
    · exact exponentText_isNumberChar _ c hc
  · rw [if_neg h1] at hc
    by_cases h2 : 0 ≤ x
    · rw [if_pos h2] at hc
      simp only [List.mem_append] at hc
      rcases hc with (hc | hc) | hc
      · exact hsign c hc
      · exact isNumberChar_of_isDigit (hsix c (List.mem_of_mem_take hc))
      · exact fractionText_isNumberChar _ (fun d hd => hsix d (List.mem_of_mem_drop hd)) c hc
    · rw [if_neg h2] at hc
      simp only [List.mem_append] at hc
      rcases hc with ((hc | hc) | hc) | hc
      · exact hsign c hc
      · simp only [List.mem_cons, List.mem_singleton, List.not_mem_nil, or_false] at hc
        rcases hc with rfl | rfl <;> decide
      · rw [List.eq_of_mem_replicate hc]; decide
      · exact isNumberChar_of_isDigit (hsix c (mem_stripTrailingZeros hc))

theorem significandText_ne_nil (neg : Bool) (n : Nat) (x : Int) :
    significandText neg n x ≠ [] := by
  unfold significandText
  simp only
  by_cases h1 : x < -4 ∨ 6 ≤ x
  · rw [if_pos h1]
    simp [exponentText]
  · rw [if_neg h1]
    by_cases h2 : 0 ≤ x
    · rw [if_pos h2]
      intro h
      have h' := congrArg List.length h
      simp only [List.length_append, List.length_take, lastDigits_length, List.length_nil] at h'
      omega
    · rw [if_neg h2]
      simp

theorem number_isNumberChar (q : ℚ) : ∀ c ∈ number q, isNumberChar c = true := by
  intro c hc
  unfold number at hc
  simp only at hc
  split_ifs at hc
  · rw [List.mem_singleton.1 hc]; decide
  · exact significandText_isNumberChar _ _ _ c hc
  · exact significandText_isNumberChar _ _ _ c hc

theorem number_ne_nil (q : ℚ) : number q ≠ [] := by
  unfold number
  simp only
  split_ifs
  · simp
  · exact significandText_ne_nil _ _ _
  · exact significandText_ne_nil _ _ _

end QString

namespace SvgUtil

theorem isParamChar_of_isNumberChar {c : Char} (h : QString.isNumberChar c = true) :
    QChar.isSpace c = false ∧ c ≠ '(' ∧ c ≠ ')' ∧ c ≠ ',' := by
  simp only [QString.isNumberChar, Bool.or_eq_true, beq_iff_eq] at h
  rcases h with (((h | rfl) | rfl) | rfl) | rfl
  · simp only [QString.isDigit, Bool.and_eq_true, decide_eq_true_eq] at h
    refine ⟨?_, ?_, ?_, ?_⟩
    · simp only [QChar.isSpace, Bool.or_eq_false_iff, Bool.and_eq_false_iff, beq_eq_false_iff_ne,
        decide_eq_false_iff_not]
      omega
    · rintro rfl; exact absurd h.1 (by decide)
    · rintro rfl; exact absurd h.1 (by decide)
    · rintro rfl; exact absurd h.1 (by decide)
  all_goals decide

/-- The text of a formatted number is a parameter token. -/
theorem isParam_number (q : ℚ) : IsParam (QString.number q) :=
  ⟨QString.number_ne_nil q, fun c hc =>
    isParamChar_of_isNumberChar (QString.number_isNumberChar q c hc)⟩

end SvgUtil

namespace SvgUtil

theorem chunk_no_close (head : QString) (words : List QString)
    (hhead : ∀ c ∈ head, (c == ')') = false)
    (hwords : ∀ w ∈ words, ∀ c ∈ w, (c == ')') = false) :
    ∀ c ∈ [] ++ head ++ '(' :: [' '].intercalate words, (c == ')') = false := by
  intro c hc
  simp only [List.nil_append, List.mem_append, List.mem_cons] at hc
  rcases hc with hc | rfl | hc
  · exact hhead c hc
  · decide
  · rcases mem_intercalate hc with rfl | ⟨w, hw, hcw⟩
    · decide
    · exact hwords w hw c hcw

theorem isPiece_trailing_comma {a : QString} (ha : IsParam a) : IsPiece (a ++ [',']) := by
  refine ⟨by simp, fun c hc => ?_⟩
  rcases List.mem_append.1 hc with hc | hc
  · exact ⟨(ha.2 c hc).1, (ha.2 c hc).2.1⟩
  · rw [List.mem_singleton.1 hc]
    exact ⟨by decide, by decide⟩

theorem isPiece_matrix : IsPiece "matrix".toList :=
  ⟨by decide, by decide⟩

theorem commandName_matrix : commandName "matrix".toList = "matrix".toList := by
  decide

theorem parseTransform_nil (lm : Libm) : parseTransform lm [] = some QTransform.identity := by
  simp [parseTransform, QString.split_nil]

/-- The text `translate(a, b)` parses to the translation by the two values. -/
theorem parseTransform_translate_text (lm : Libm) (a b : QString) (ha : IsParam a)
    (hb : IsParam b) :
    parseTransform lm ("translate(".toList ++ a ++ ", ".toList ++ b ++ ")".toList) =
      some ⟨1, 0, 0, 1, QString.toDouble a, QString.toDouble b⟩ := by
  have e : "translate(".toList ++ a ++ ", ".toList ++ b ++ ")".toList =
      ([] ++ "translate".toList ++ '(' :: [' '].intercalate [a ++ [','], b]) ++ [')'] := by
    simp [QString.intercalate_single, QString.intercalate_cons_cons]
  have hpieces : ∀ x ∈ [a ++ [','], b], IsPiece x := by
    intro x hx
    simp only [List.mem_cons, List.mem_singleton, List.not_mem_nil, or_false] at hx
    rcases hx with rfl | rfl
    · exact isPiece_trailing_comma ha
    · exact hb.isPiece
  have hclose := chunk_no_close "translate".toList [a ++ [','], b] (by decide) (by
    intro w hw c hc
    simp only [List.mem_cons, List.mem_singleton, List.not_mem_nil, or_false] at hw
    rcases hw with rfl | rfl
    · rcases List.mem_append.1 hc with hc | hc
      · exact ha.not_close c hc
      · rw [List.mem_singleton.1 hc]; decide
    · exact hb.not_close c hc)
  have hparams : QString.split isParamSep ([' '].intercalate [a ++ [','], b]) = [a, b] := by
    rw [QString.intercalate_cons_cons, QString.intercalate_single,
      QString.split_append_sep _ _ _ _ (by decide), split_params_one hb,
      QString.split_append_sep _ _ _ _ (by decide), split_params_one ha, QString.split_nil]
    rfl
  unfold parseTransform
  rw [e, split_close_single _ (by simp) hclose]
  simp only [List.foldlM_cons, List.foldlM_nil]
  rw [parseSubtransform_chunk lm _ [] _ _ _ (by simp) isPiece_translate hpieces,
    commandName_translate, hparams]
  simp [applyCommand, paramAt, fromUserSpace, QTransform.translate, QTransform.identity]

/-- The text `matrix(a b c d e f)` parses to the matrix of the six values. -/
theorem parseTransform_matrix_text (lm : Libm) (a b c d e f : QString) (ha : IsParam a)
    (hb : IsParam b) (hc : IsParam c) (hd : IsParam d) (he : IsParam e) (hf : IsParam f) :
    parseTransform lm ("matrix(".toList ++ a ++ " ".toList ++ b ++ " ".toList ++ c ++
        " ".toList ++ d ++ " ".toList ++ e ++ " ".toList ++ f ++ ")".toList) =
      some ⟨QString.toDouble a, QString.toDouble b, QString.toDouble c, QString.toDouble d,
        QString.toDouble e, QString.toDouble f⟩ := by
  have e1 : "matrix(".toList ++ a ++ " ".toList ++ b ++ " ".toList ++ c ++
        " ".toList ++ d ++ " ".toList ++ e ++ " ".toList ++ f ++ ")".toList =
      ([] ++ "matrix".toList ++ '(' :: [' '].intercalate [a, b, c, d, e, f]) ++ [')'] := by
    simp [QString.intercalate_single, QString.intercalate_cons_cons]
  have hall : ∀ x ∈ [a, b, c, d, e, f], IsParam x := by
    intro x hx
    simp only [List.mem_cons, List.mem_singleton, List.not_mem_nil, or_false] at hx
    rcases hx with rfl | rfl | rfl | rfl | rfl | rfl <;> assumption
  have hclose := chunk_no_close "matrix".toList [a, b, c, d, e, f] (by decide)
    (fun w hw => (hall w hw).not_close)
  have hparams : QString.split isParamSep ([' '].intercalate [a, b, c, d, e, f]) =
      [a, b, c, d, e, f] := by
    simp only [QString.intercalate_cons_cons, QString.intercalate_single]
    rw [split_params_space _ ha, split_params_space _ hb, split_params_space _ hc,
      split_params_space _ hd, split_params_space _ he, split_params_one hf]
  unfold parseTransform
  rw [e1, split_close_single _ (by simp) hclose]
  simp only [List.foldlM_cons, List.foldlM_nil]
  rw [parseSubtransform_chunk lm _ [] _ _ _ (by simp) isPiece_matrix
    (fun x hx => (hall x hx).isPiece), commandName_matrix, hparams]
  have hl : QString.toLower ['m', 'a', 't', 'r', 'i', 'x'] = ['m', 'a', 't', 'r', 'i', 'x'] := by
    decide
  simp [applyCommand, paramAt, fromUserSpace, QTransform.setMatrix, hl]

theorem eq_identity_of_type_none (t : QTransform)
    (h : t.type = TransformationType.TxNone) : t = QTransform.identity := by
  unfold QTransform.type at h
  split_ifs at h with h1 h2 h3 h4
  obtain ⟨m11, m12, m21, m22, dx, dy⟩ := t
  simp only [ne_eq, not_or, not_not] at h1 h3 h4
  simp only [QTransform.identity, QTransform.mk.injEq]
  exact ⟨h3.1, h1.1, h1.2, h3.2, h4.1, h4.2⟩

theorem linear_part_of_type_translate (t : QTransform)
    (h : t.type = TransformationType.TxTranslate) :
    t.m11 = 1 ∧ t.m12 = 0 ∧ t.m21 = 0 ∧ t.m22 = 1 := by
  unfold QTransform.type at h
  split_ifs at h with h1 h2 h3 h4
  simp only [ne_eq, not_or, not_not] at h1 h3
  exact ⟨h3.1, h1.1, h1.2, h3.2⟩

/-- Parsing the serialised form of a transform the formatter prints without loss
gives the transform back. -/
theorem parseTransform_transformToString (lm : Libm) (t : QTransform)
    (h : t.printsExactly = true) :
    parseTransform lm (transformToString t) = some t := by
  simp only [QTransform.printsExactly, QString.printsExactly, Bool.and_eq_true,
    decide_eq_true_eq] at h
  obtain ⟨⟨⟨⟨⟨h11, h12⟩, h21⟩, h22⟩, hdx⟩, hdy⟩ := h
  unfold transformToString
  by_cases hid : t.isIdentity = true
  · rw [if_pos hid, parseTransform_nil]
    have : t.type = TransformationType.TxNone := by
      simpa [QTransform.isIdentity] using hid
    rw [eq_identity_of_type_none t this]
  · rw [if_neg hid]
    by_cases htr : t.type = TransformationType.TxTranslate
    · rw [if_pos htr, parseTransform_translate_text lm _ _ (isParam_number _) (isParam_number _)]
      obtain ⟨l1, l2, l3, l4⟩ := linear_part_of_type_translate t htr
      obtain ⟨m11, m12, m21, m22, dx, dy⟩ := t
      simp only [toUserSpace] at *
      simp only [hdx, hdy, l1, l2, l3, l4]
    · rw [if_neg htr, parseTransform_matrix_text lm _ _ _ _ _ _ (isParam_number _)
        (isParam_number _) (isParam_number _) (isParam_number _) (isParam_number _)
        (isParam_number _)]
      simp only [toUserSpace, h11, h12, h21, h22, hdx, hdy]

end SvgUtil

/-- C4, as amended: parsing the serialised form of a transform whose six coefficients
the number formatter prints without loss gives the transform back, in each of the
three serialised shapes (the empty text for the identity, `translate(dx, dy)` for a
translation, `matrix(m11 m12 m21 m22 dx dy)` otherwise); hence a text whose parsed
transform has such coefficients parses to the same transform after a round trip. -/
theorem C4_roundtrip_printed_exactly (lm : Libm) :
    (∀ t : QTransform, t.printsExactly = true →
      SvgUtil.parseTransform lm (SvgUtil.transformToString t) = some t) ∧
    (∀ (s : QString) (t : QTransform), SvgUtil.parseTransform lm s = some t →
      t.printsExactly = true →
      SvgUtil.parseTransform lm (SvgUtil.transformToString t) = SvgUtil.parseTransform lm s) ∧
    SvgUtil.transformToString QTransform.identity = [] ∧
    (∀ dx dy : ℚ, dx ≠ 0 ∨ dy ≠ 0 →
      SvgUtil.transformToString ⟨1, 0, 0, 1, dx, dy⟩ =
        "translate(".toList ++ QString.number dx ++ ", ".toList ++ QString.number dy ++
          ")".toList) ∧
    (∀ t : QTransform, t.type ≠ TransformationType.TxNone →
      t.type ≠ TransformationType.TxTranslate →
      SvgUtil.transformToString t =
        "matrix(".toList ++ QString.number t.m11 ++ " ".toList ++ QString.number t.m12 ++
          " ".toList ++ QString.number t.m21 ++ " ".toList ++ QString.number t.m22 ++
          " ".toList ++ QString.number t.dx ++ " ".toList ++ QString.number t.dy ++
          ")".toList) := by
  refine ⟨fun t h => SvgUtil.parseTransform_transformToString lm t h, ?_, by decide!, ?_, ?_⟩
  · intro s t hs h
    rw [hs]
    exact SvgUtil.parseTransform_transformToString lm t h
  · intro dx dy h
    have htype : QTransform.type ⟨1, 0, 0, 1, dx, dy⟩ = TransformationType.TxTranslate := by
      simp [QTransform.type, h]
    simp [SvgUtil.transformToString, QTransform.isIdentity, htype, SvgUtil.toUserSpace]
  · intro t h1 h2
    simp [SvgUtil.transformToString, QTransform.isIdentity, h1, h2, SvgUtil.toUserSpace]

/-- C4 at a concrete input: the coefficients of the transform `(2, 0, 0, 2, 10, 20)`
are printed without loss, and parsing its serialised form gives it back. -/
theorem C4_roundtrip_printed_exactly_witness :
    QTransform.printsExactly ⟨2, 0, 0, 2, 10, 20⟩ = true ∧
    SvgUtil.parseTransform Libm.sample (SvgUtil.transformToString ⟨2, 0, 0, 2, 10, 20⟩) =
      some ⟨2, 0, 0, 2, 10, 20⟩ :=
  ⟨by decide!, (C4_roundtrip_printed_exactly Libm.sample).1 ⟨2, 0, 0, 2, 10, 20⟩ (by decide!)⟩

/-- C4 as stated fails: `translate(1.2345678,0)` parses to the translation by
`1.2345678`, which is serialised with six significant digits as
`translate(1.23457, 0)`, and this text parses to another transform. -/
theorem C4_roundtrip_counterexample :
    SvgUtil.parseTransform Libm.sample "translate(1.2345678,0)".toList =
      some ⟨1, 0, 0, 1, 6172839 / 5000000, 0⟩ ∧
    SvgUtil.transformToString ⟨1, 0, 0, 1, 6172839 / 5000000, 0⟩ =
      "translate(1.23457, 0)".toList ∧
    SvgUtil.parseTransform Libm.sample "translate(1.23457, 0)".toList =
      some ⟨1, 0, 0, 1, 123457 / 100000, 0⟩ ∧
    SvgUtil.parseTransform Libm.sample
        (SvgUtil.transformToString ⟨1, 0, 0, 1, 6172839 / 5000000, 0⟩) ≠
      SvgUtil.parseTransform Libm.sample "translate(1.2345678,0)".toList := by
  refine ⟨by decide!, by decide!, by decide!, by decide!⟩

/-! ### Values in the range of a double -/

namespace QReal

theorem isNormal_zero : isNormal 0 = true := by
  simp [isNormal]

theorem isNormal_one : isNormal 1 = true := by
  decide!

end QReal

namespace QReal

end QReal

/-! ### The numeric lexer -/

namespace SvgUtil

open NumberLiteral

theorem readInteger_stop (a : Int) (rest : List Char)
    (hrest : headIs isDigitChar rest = false) : readInteger a rest = (a, rest) := by
  cases rest with
  | nil => rfl
  | cons c cs =>
    simp only [headIs] at hrest
    simp [readInteger, hrest]

theorem digitChar_not_dot (d : Fin 10) : (fun c : Char => c == '.') (digitChar d) = false := by
  fin_cases d <;> rfl

theorem readSign_stop (rest : List Char)
    (hrest : headIs (fun c => c == '+' || c == '-') rest = false) :
    readSign rest = (1, rest) := by
  cases rest with
  | nil => rfl
  | cons c cs =>
    simp only [headIs, Bool.or_eq_false_iff, beq_eq_false_iff_ne, ne_eq] at hrest
    simp [readSign, hrest.1, hrest.2]

theorem readFraction_stop (rest : List Char)
    (hrest : headIs (fun c => c == '.') rest = false) : readFraction rest = (0, rest) := by
  cases rest with
  | nil => rfl
  | cons c cs =>
    simp only [headIs, beq_eq_false_iff_ne, ne_eq] at hrest
    simp [readFraction, hrest]

theorem readExponentPart_stop (rest : List Char) (hrest : startsExponent rest = false) :
    readExponentPart rest = (1, 0, rest) := by
  cases rest with
  | nil => rfl
  | cons c cs =>
    simp only [startsExponent, headIs, Bool.or_eq_false_iff, beq_eq_false_iff_ne, ne_eq] at hrest
    simp [readExponentPart, hrest.1, hrest.2]

end SvgUtil

namespace SvgUtil

open NumberLiteral

end SvgUtil

/-- C9, as amended: when the text is empty or its first character is none of the
characters the lexer consumes (a sign, a digit, `.`, `e`, `E`), the lexer returns the
value 0 and consumes no character; on `abc` it returns 0 and the end position 0. -/
theorem C9_parseNumber_no_numeric_character (s : List Char)
    (h : SvgUtil.startsNumeric s = false) :
    SvgUtil.parseNumber s = (QReal.finite 0, s) ∧ SvgUtil.parseNumberEnd s = 0 ∧
    SvgUtil.parseNumber "abc".toList = (QReal.finite 0, "abc".toList) ∧
    SvgUtil.parseNumberEnd "abc".toList = 0 := by
  have key : SvgUtil.parseNumber s = (QReal.finite 0, s) := by
    have hsign : SvgUtil.headIs (fun c => c == '+' || c == '-') s = false := by
      cases s with
      | nil => rfl
      | cons c cs =>
        simp only [SvgUtil.startsNumeric, SvgUtil.headIs, Bool.or_eq_false_iff] at h
        simp only [SvgUtil.headIs, Bool.or_eq_false_iff]
        tauto
    have hdigit : SvgUtil.headIs SvgUtil.isDigitChar s = false := by
      cases s with
      | nil => rfl
      | cons c cs =>
        simp only [SvgUtil.startsNumeric, SvgUtil.headIs, Bool.or_eq_false_iff] at h
        simp only [SvgUtil.headIs]
        tauto
    have hdot : SvgUtil.headIs (fun c => c == '.') s = false := by
      cases s with
      | nil => rfl
      | cons c cs =>
        simp only [SvgUtil.startsNumeric, SvgUtil.headIs, Bool.or_eq_false_iff] at h
        simp only [SvgUtil.headIs]
        tauto
    have hexp : SvgUtil.startsExponent s = false := by
      cases s with
      | nil => rfl
      | cons c cs =>
        simp only [SvgUtil.startsNumeric, SvgUtil.headIs, Bool.or_eq_false_iff] at h
        simp only [SvgUtil.startsExponent, SvgUtil.headIs, Bool.or_eq_false_iff]
        tauto
    have hw : wrapInt (1 * 0) = 0 := by decide
    have hv : (QReal.finite (((0 : Int) : ℚ) + 0)).mul
        ((QReal.finite ((1 : Int) : ℚ)).mul (QReal.pow10 0)) = QReal.finite 0 := by decide!
    simp only [SvgUtil.parseNumber, SvgUtil.readSign_stop s hsign,
      SvgUtil.readInteger_stop 0 s hdigit, SvgUtil.readFraction_stop s hdot,
      SvgUtil.readExponentPart_stop s hexp, hw, hv]
  refine ⟨key, by simp [SvgUtil.parseNumberEnd, key], by decide!, by decide!⟩

/-- C9 at a concrete input: `abc` does not start with a character the lexer consumes,
and the lexer returns 0 without consuming a character. -/
theorem C9_parseNumber_no_numeric_character_witness :
    SvgUtil.startsNumeric "abc".toList = false ∧
    SvgUtil.parseNumber "abc".toList = (QReal.finite 0, "abc".toList) ∧
    SvgUtil.parseNumberEnd "abc".toList = 0 :=
  ⟨by decide, (C9_parseNumber_no_numeric_character "abc".toList (by decide)).1,
    (C9_parseNumber_no_numeric_character "abc".toList (by decide)).2.1⟩

/-- C9 as stated fails: no number starts the texts `+abc` and `em`, and the lexer
consumes their first character, the sign and the exponent marker. -/
theorem C9_parseNumber_sign_counterexample :
    SvgUtil.startsNumber "+abc".toList = false ∧
    SvgUtil.parseNumber "+abc".toList = (QReal.finite 0, "abc".toList) ∧
    SvgUtil.parseNumberEnd "+abc".toList = 1 ∧
    SvgUtil.startsNumber "em".toList = false ∧
    SvgUtil.parseNumber "em".toList = (QReal.finite 0, "m".toList) ∧
    SvgUtil.parseNumberEnd "em".toList = 1 := by
  refine ⟨by decide, by decide!, by decide!, by decide, by decide!, by decide!⟩

/-! ### The unit resolver -/

namespace SvgUtil

open NumberLiteral

end SvgUtil

namespace SvgUtil

theorem QReal_div_of_ne_zero (a b : ℚ) (h : b ≠ 0) : QReal.div a b = QReal.finite (a / b) := by
  simp [QReal.div, h]

end SvgUtil

/-! ### The viewBox resolver -/

namespace QString

theorem splitOnP_no_sep (p : Char → Bool) (s : List Char) :
    ∀ w ∈ List.splitOnP p s, ∀ c ∈ w, p c = false := by
  induction s with
  | nil => simp
  | cons x xs ih =>
    intro w hw c hc
    rw [List.splitOnP_cons] at hw
    by_cases hx : p x = true
    · simp only [hx, if_true, List.mem_cons] at hw
      rcases hw with rfl | hw
      · simp at hc
      · exact ih w hw c hc
    · simp only [hx, if_false] at hw
      cases hs : List.splitOnP p xs with
      | nil => exact absurd hs (List.splitOnP_ne_nil p xs)
      | cons hd tl =>
        rw [hs] at hw ih
        simp only [Bool.false_eq_true, List.modifyHead_cons] at hw
        rcases List.mem_cons.1 hw with hw | hw
        · rw [hw] at hc
          rcases List.mem_cons.1 hc with hc | hc
          · rw [hc]; simpa using hx
          · exact ih hd (List.mem_cons_self hd tl) c hc
        · exact ih w (List.mem_cons_of_mem hd hw) c hc

theorem split_elements (p : Char → Bool) (s : QString) :
    ∀ w ∈ split p s, w ≠ [] ∧ ∀ c ∈ w, p c = false := by
  intro w hw
  simp only [split, List.mem_filter, Bool.not_eq_true', List.isEmpty_eq_false] at hw
  exact ⟨by simpa using hw.2, splitOnP_no_sep p s w hw.1⟩

theorem splitKeepEmpty_words (w : QString) (ws : List QString)
    (h : ∀ x ∈ w :: ws, ∀ c ∈ x, (c == ' ') = false) :
    splitKeepEmpty ' ' ([' '].intercalate (w :: ws)) = w :: ws := by
  induction ws generalizing w with
  | nil =>
    rw [intercalate_single]
    unfold splitKeepEmpty
    apply List.splitOnP_eq_single
    intro c hc
    simpa using h w (List.mem_singleton_self w) c hc
  | cons w2 ws ih =>
    rw [intercalate_cons_cons]
    unfold splitKeepEmpty
    rw [splitOnP_append_sep _ _ _ _ (by decide)]
    have h1 : List.splitOnP (fun c => c == ' ') w = [w] := by
      apply List.splitOnP_eq_single
      intro c hc
      simpa using h w (List.mem_cons_self w _) c hc
    have h2 := ih w2 (fun x hx => h x (List.mem_cons_of_mem w hx))
    unfold splitKeepEmpty at h2
    rw [h1, h2]
    rfl

/-- The parts of a simplified text at its blanks are its words; the empty text has
one empty part. -/
theorem splitKeepEmpty_simplified (s : QString) :
    splitKeepEmpty ' ' (simplified s) =
      if split QChar.isSpace s = [] then [[]] else split QChar.isSpace s := by
  unfold simplified
  cases hws : split QChar.isSpace s with
  | nil => rfl
  | cons w ws =>
    simp only [List.cons_ne_nil, if_false, reduceCtorEq]
    apply splitKeepEmpty_words
    intro x hx c hc
    have hx' : x ∈ split QChar.isSpace s := by rw [hws]; exact hx
    have hsp := (split_elements _ s x hx').2 c hc
    by_cases hc' : c = ' '
    · subst hc'; exact absurd hsp (by decide)
    · simpa using hc'

end QString

namespace SvgUtil

theorem viewBoxPoints_eq (s : QString) :
    viewBoxPoints s = if viewBoxWords s = [] then [[]] else viewBoxWords s :=
  QString.splitKeepEmpty_simplified _

theorem viewBoxPoints_length_four (s : QString) :
    (viewBoxPoints s).length = 4 ↔ (viewBoxWords s).length = 4 := by
  rw [viewBoxPoints_eq]
  cases h : viewBoxWords s with
  | nil => simp
  | cons w ws => simp

theorem viewBoxRect_isSome_iff (s : QString) :
    (viewBoxRect s).isSome = true ↔ (viewBoxPoints s).length = 4 := by
  unfold viewBoxRect
  rcases h : viewBoxPoints s with _ | ⟨p0, _ | ⟨p1, _ | ⟨p2, _ | ⟨p3, _ | ⟨p4, rest⟩⟩⟩⟩⟩ <;> simp

theorem parseViewBox_result (init : PreserveAspectRatioParser) (e : KoXmlElement)
    (elementBounds viewRect : QRectF) (viewTransform : QTransform) :
    (parseViewBox init e elementBounds viewRect viewTransform).result = true ↔
      e.attribute "viewBox".toList ≠ [] ∧
        (viewBoxPoints (e.attribute "viewBox".toList)).length = 4 := by
  simp only [parseViewBox]
  rw [← viewBoxRect_isSome_iff]
  generalize e.attribute "viewBox".toList = s
  cases s with
  | nil => simp
  | cons c cs =>
    cases viewBoxRect (c :: cs) <;> simp

theorem parseViewBox_unchanged (init : PreserveAspectRatioParser) (e : KoXmlElement)
    (elementBounds viewRect : QRectF) (viewTransform : QTransform)
    (h : (parseViewBox init e elementBounds viewRect viewTransform).result = false) :
    (parseViewBox init e elementBounds viewRect viewTransform).viewRect = viewRect ∧
    (parseViewBox init e elementBounds viewRect viewTransform).viewTransform =
      some viewTransform := by
  simp only [parseViewBox] at h ⊢
  generalize e.attribute "viewBox".toList = s at h ⊢
  cases s with
  | nil => simp
  | cons c cs =>
    cases hr : viewBoxRect (c :: cs) with
    | none => simp
    | some r => rw [hr] at h; simp at h

theorem attribute_of_absent (e : KoXmlElement) (name : QString)
    (h : e.attributes.lookup name = none) : e.attribute name = [] := by
  simp [KoXmlElement.attribute, h]

end SvgUtil

/-- C11: `parseViewBox` returns true exactly when the viewBox attribute is not empty
and, once `px` is removed, the commas are replaced by blanks and the whitespace is
collapsed, splits into exactly 4 tokens (that is, has exactly 4 words); it returns
false when the attribute is absent or empty; and whenever it returns false the
output rectangle and the output transform are left as they were. -/
theorem C11_parseViewBox_success_and_failure (init : SvgUtil.PreserveAspectRatioParser)
    (e : KoXmlElement) (elementBounds viewRect : QRectF) (viewTransform : QTransform) :
    ((SvgUtil.parseViewBox init e elementBounds viewRect viewTransform).result = true ↔
      e.attribute "viewBox".toList ≠ [] ∧
        (SvgUtil.viewBoxPoints (e.attribute "viewBox".toList)).length = 4) ∧
    ((SvgUtil.viewBoxPoints (e.attribute "viewBox".toList)).length = 4 ↔
      (SvgUtil.viewBoxWords (e.attribute "viewBox".toList)).length = 4) ∧
    (e.attributes.lookup "viewBox".toList = none →
      (SvgUtil.parseViewBox init e elementBounds viewRect viewTransform).result = false) ∧
    (e.attribute "viewBox".toList = [] →
      (SvgUtil.parseViewBox init e elementBounds viewRect viewTransform).result = false) ∧
    ((SvgUtil.viewBoxPoints (e.attribute "viewBox".toList)).length ≠ 4 →
      (SvgUtil.parseViewBox init e elementBounds viewRect viewTransform).result = false) ∧
    ((SvgUtil.parseViewBox init e elementBounds viewRect viewTransform).result = false →
      (SvgUtil.parseViewBox init e elementBounds viewRect viewTransform).viewRect = viewRect ∧
      (SvgUtil.parseViewBox init e elementBounds viewRect viewTransform).viewTransform =
        some viewTransform) := by
  have hres := SvgUtil.parseViewBox_result init e elementBounds viewRect viewTransform
  have hfalse : ∀ {P : Prop}, ¬P →
      ((SvgUtil.parseViewBox init e elementBounds viewRect viewTransform).result = true ↔ P) →
      (SvgUtil.parseViewBox init e elementBounds viewRect viewTransform).result = false := by
    intro P hP hiff
    cases hb : (SvgUtil.parseViewBox init e elementBounds viewRect viewTransform).result with
    | false => rfl
    | true => exact absurd (hiff.1 hb) hP
  refine ⟨hres, SvgUtil.viewBoxPoints_length_four _, ?_, ?_, ?_,
    SvgUtil.parseViewBox_unchanged init e elementBounds viewRect viewTransform⟩
  · intro habsent
    exact hfalse (fun h => h.1 (SvgUtil.attribute_of_absent e _ habsent)) hres
  · intro hempty
    exact hfalse (fun h => h.1 hempty) hres
  · intro hcount
    exact hfalse (fun h => hcount h.2) hres

/-- C11 at a concrete input: an element without viewBox attribute, the attribute
`0 0 100` with three tokens, and the attribute `0px,0px, 100px  50px` with four. -/
theorem C11_parseViewBox_success_and_failure_witness :
    List.lookup "viewBox".toList ([] : List (QString × QString)) = none ∧
    (SvgUtil.parseViewBox ⟨false, AspectRatioMode.IgnoreAspectRatio, SvgUtil.Alignment.Min,
      SvgUtil.Alignment.Min⟩ ⟨"svg".toList, []⟩ ⟨0, 0, 200, 200⟩ ⟨1, 2, 3, 4⟩
      ⟨1, 0, 0, 1, 5, 6⟩).result = false ∧
    (SvgUtil.parseViewBox ⟨false, AspectRatioMode.IgnoreAspectRatio, SvgUtil.Alignment.Min,
      SvgUtil.Alignment.Min⟩ ⟨"svg".toList, []⟩ ⟨0, 0, 200, 200⟩ ⟨1, 2, 3, 4⟩
      ⟨1, 0, 0, 1, 5, 6⟩).viewRect = ⟨1, 2, 3, 4⟩ ∧
    (SvgUtil.viewBoxPoints "0 0 100".toList).length ≠ 4 ∧
    SvgUtil.viewBoxPoints "0px,0px, 100px  50px".toList =
      ["0".toList, "0".toList, "100".toList, "50".toList] :=
  ⟨rfl,
    (C11_parseViewBox_success_and_failure ⟨false, AspectRatioMode.IgnoreAspectRatio,
      SvgUtil.Alignment.Min, SvgUtil.Alignment.Min⟩ ⟨"svg".toList, []⟩ ⟨0, 0, 200, 200⟩
      ⟨1, 2, 3, 4⟩ ⟨1, 0, 0, 1, 5, 6⟩).2.2.1 rfl,
    ((C11_parseViewBox_success_and_failure ⟨false, AspectRatioMode.IgnoreAspectRatio,
      SvgUtil.Alignment.Min, SvgUtil.Alignment.Min⟩ ⟨"svg".toList, []⟩ ⟨0, 0, 200, 200⟩
      ⟨1, 2, 3, 4⟩ ⟨1, 0, 0, 1, 5, 6⟩).2.2.2.2.2
      ((C11_parseViewBox_success_and_failure ⟨false, AspectRatioMode.IgnoreAspectRatio,
        SvgUtil.Alignment.Min, SvgUtil.Alignment.Min⟩ ⟨"svg".toList, []⟩ ⟨0, 0, 200, 200⟩
        ⟨1, 2, 3, 4⟩ ⟨1, 0, 0, 1, 5, 6⟩).2.2.1 rfl)).1,
    by decide, by decide⟩

namespace SvgUtil

theorem viewBoxRect_nil : viewBoxRect [] = none := by decide

theorem parseViewBox_of_rect (init : PreserveAspectRatioParser) (e : KoXmlElement)
    (elementBounds viewRect : QRectF) (viewTransform : QTransform) (r : QRectF)
    (hr : viewBoxRect (e.attribute "viewBox".toList) = some r) :
    (parseViewBox init e elementBounds viewRect viewTransform).result = true ∧
    (parseViewBox init e elementBounds viewRect viewTransform).viewRect = r ∧
    (parseViewBox init e elementBounds viewRect viewTransform).viewTransform =
      viewBoxTransform init e r elementBounds := by
  simp only [parseViewBox]
  generalize e.attribute "viewBox".toList = s at hr ⊢
  cases s with
  | nil => rw [viewBoxRect_nil] at hr; exact absurd hr (by simp)
  | cons c cs => simp [hr]

theorem viewBoxRect_of_points (s p0 p1 p2 p3 : QString)
    (h : viewBoxPoints s = [p0, p1, p2, p3]) :
    viewBoxRect s =
      some ⟨QString.toFloat p0, QString.toFloat p1, QString.toFloat p2, QString.toFloat p3⟩ := by
  simp [viewBoxRect, h, QRectF.setX, QRectF.setY, QRectF.setWidth, QRectF.setHeight,
    fromUserSpace]

theorem baselineTransform_eq (r b : QRectF) (hw : r.width ≠ 0) (hh : r.height ≠ 0) :
    baselineTransform r b =
      some ⟨b.width / r.width, 0, 0, b.height / r.height,
        -r.x * (b.width / r.width), -r.y * (b.height / r.height)⟩ := by
  simp [baselineTransform, QReal.div, QReal.toOption, hw, hh, QTransform.mul,
    QTransform.fromTranslate, QTransform.fromScale]

theorem viewBoxTransform_no_aspect (init : PreserveAspectRatioParser) (e : KoXmlElement)
    (r b : QRectF) (h : e.attribute "preserveAspectRatio".toList = []) :
    viewBoxTransform init e r b = baselineTransform r b := by
  simp only [viewBoxTransform]
  generalize e.attribute "preserveAspectRatio".toList = s at h ⊢
  subst h
  simp

theorem viewBoxTransform_aspect (init : PreserveAspectRatioParser) (e : KoXmlElement)
    (r b : QRectF) (h : e.attribute "preserveAspectRatio".toList ≠ [])
    (hmode : (PreserveAspectRatioParser.construct init
      (e.attribute "preserveAspectRatio".toList)).mode ≠ AspectRatioMode.IgnoreAspectRatio) :
    viewBoxTransform init e r b =
      aspectTransform (PreserveAspectRatioParser.construct init
        (e.attribute "preserveAspectRatio".toList)) r b := by
  simp only [viewBoxTransform]
  generalize e.attribute "preserveAspectRatio".toList = s at h hmode ⊢
  cases s with
  | nil => exact absurd rfl h
  | cons c cs => simp [hmode]

/-- The transform of the aspect ratio branch for a finite uniform scale `u`: a point
is scaled about the anchor of the viewBox and moved onto the anchor of the bounds. -/
theorem aspectTransform_of_scale (p : PreserveAspectRatioParser) (r b : QRectF) (u : ℚ)
    (hu : uniformScale p r b = QReal.finite u) :
    ∃ t : QTransform, aspectTransform p r b = some t ∧
      t.m11 = u ∧ t.m12 = 0 ∧ t.m21 = 0 ∧ t.m22 = u ∧
      ∀ pt : QPointF, t.map pt =
        ⟨u * (pt.x - (p.rectAnchorPoint r).x) + (p.rectAnchorPoint b).x,
         u * (pt.y - (p.rectAnchorPoint r).y) + (p.rectAnchorPoint b).y⟩ := by
  refine ⟨_, by simp only [aspectTransform, hu, QReal.toOption]; rfl, ?_, ?_, ?_, ?_, ?_⟩
  · simp [QTransform.mul, QTransform.fromTranslate, QTransform.fromScale]
  · simp [QTransform.mul, QTransform.fromTranslate, QTransform.fromScale]
  · simp [QTransform.mul, QTransform.fromTranslate, QTransform.fromScale]
  · simp [QTransform.mul, QTransform.fromTranslate, QTransform.fromScale]
  · intro pt
    simp only [QTransform.mul, QTransform.fromTranslate, QTransform.fromScale, QTransform.map,
      QPointF.mk.injEq]
    constructor <;> ring

theorem uniformScale_finite (p : PreserveAspectRatioParser) (r b : QRectF)
    (hw : r.width ≠ 0) (hh : r.height ≠ 0) :
    uniformScale p r b = QReal.finite (b.height / r.height) ∨
      uniformScale p r b = QReal.finite (b.width / r.width) := by
  unfold uniformScale
  simp only
  split
  · exact Or.inl (QReal_div_of_ne_zero _ _ hh)
  · exact Or.inr (QReal_div_of_ne_zero _ _ hw)

theorem uniformScale_meet (p : PreserveAspectRatioParser) (r b : QRectF)
    (hmode : p.mode = AspectRatioMode.KeepAspectRatio)
    (hw : 0 < r.width) (hh : 0 < r.height) (hbw : 0 < b.width) (_hbh : 0 < b.height) :
    uniformScale p r b = QReal.finite (min (b.width / r.width) (b.height / r.height)) := by
  have e1 : QReal.div r.height r.width = QReal.finite (r.height / r.width) :=
    QReal_div_of_ne_zero _ _ (ne_of_gt hw)
  have e2 : QReal.div b.height b.width = QReal.finite (b.height / b.width) :=
    QReal_div_of_ne_zero _ _ (ne_of_gt hbw)
  have hiff : b.height / b.width < r.height / r.width ↔
      b.height / r.height < b.width / r.width := by
    rw [div_lt_div_iff₀ hbw hw, div_lt_div_iff₀ hh hw]
    constructor <;> intro h <;> linarith
  unfold uniformScale
  simp only [hmode, e1, e2, QReal.gt, reduceCtorEq, decide_False, Bool.false_xor,
    decide_eq_true_eq]
  by_cases hc : b.height / b.width < r.height / r.width
  · rw [if_pos hc, QReal_div_of_ne_zero _ _ (ne_of_gt hh),
      min_eq_right (le_of_lt (hiff.1 hc))]
  · rw [if_neg hc, QReal_div_of_ne_zero _ _ (ne_of_gt hw),
      min_eq_left (not_lt.1 (fun h => hc (hiff.2 h)))]

theorem uniformScale_slice (p : PreserveAspectRatioParser) (r b : QRectF)
    (hmode : p.mode = AspectRatioMode.KeepAspectRatioByExpanding)
    (hw : 0 < r.width) (hh : 0 < r.height) (hbw : 0 < b.width) (_hbh : 0 < b.height) :
    uniformScale p r b = QReal.finite (max (b.width / r.width) (b.height / r.height)) := by
  have e1 : QReal.div r.height r.width = QReal.finite (r.height / r.width) :=
    QReal_div_of_ne_zero _ _ (ne_of_gt hw)
  have e2 : QReal.div b.height b.width = QReal.finite (b.height / b.width) :=
    QReal_div_of_ne_zero _ _ (ne_of_gt hbw)
  have hiff : b.height / b.width < r.height / r.width ↔
      b.height / r.height < b.width / r.width := by
    rw [div_lt_div_iff₀ hbw hw, div_lt_div_iff₀ hh hw]
    constructor <;> intro h <;> linarith
  unfold uniformScale
  simp only [hmode, e1, e2, QReal.gt, decide_True, Bool.true_xor, Bool.not_eq_true',
    decide_eq_false_iff_not]
  by_cases hc : b.height / b.width < r.height / r.width
  · rw [if_neg (not_not.2 hc), QReal_div_of_ne_zero _ _ (ne_of_gt hw),
      max_eq_left (le_of_lt (hiff.1 hc))]
  · rw [if_pos hc, QReal_div_of_ne_zero _ _ (ne_of_gt hh),
      max_eq_right (not_lt.1 (fun h => hc (hiff.2 h)))]

end SvgUtil

namespace SvgUtil

open PreserveAspectRatioParser

/-- Along one axis, for a scale `u` with `u * w ≤ E`: the image of a coordinate of the
interval `[x, x + w]` lies in `[ex, ex + E]` when the anchors are aligned. -/
theorem alignedValue_meet (x w ex E u p : ℚ) (al : Alignment) (hu : 0 ≤ u)
    (huw : u * w ≤ E) (h1 : x ≤ p) (h2 : p ≤ x + w) :
    ex ≤ u * (p - alignedValue x (x + w) al) + alignedValue ex (ex + E) al ∧
    u * (p - alignedValue x (x + w) al) + alignedValue ex (ex + E) al ≤ ex + E := by
  have a1 : 0 ≤ u * (p - x) := mul_nonneg hu (by linarith)
  have a2 : u * (p - x) ≤ u * w := mul_le_mul_of_nonneg_left (by linarith) hu
  cases al <;> simp only [alignedValue] <;> constructor <;> linarith

/-- Along one axis, for a scale `u` with `E ≤ u * w`: every coordinate of the interval
`[ex, ex + E]` is the image of a coordinate of `[x, x + w]` when the anchors are
aligned. -/
theorem alignedValue_slice (x w ex E u q : ℚ) (al : Alignment) (hu : 0 < u)
    (huw : E ≤ u * w) (h1 : ex ≤ q) (h2 : q ≤ ex + E) :
    ∃ p : ℚ, x ≤ p ∧ p ≤ x + w ∧
      u * (p - alignedValue x (x + w) al) + alignedValue ex (ex + E) al = q := by
  refine ⟨(q - alignedValue ex (ex + E) al) / u + alignedValue x (x + w) al, ?_, ?_, ?_⟩
  · have hd : u * ((q - alignedValue ex (ex + E) al) / u) = q - alignedValue ex (ex + E) al := by
      field_simp
    have key : u * x ≤ u * ((q - alignedValue ex (ex + E) al) / u + alignedValue x (x + w) al) := by
      rw [mul_add, hd]
      cases al <;> simp only [alignedValue] <;> linarith
    exact le_of_mul_le_mul_left key hu
  · have hd : u * ((q - alignedValue ex (ex + E) al) / u) = q - alignedValue ex (ex + E) al := by
      field_simp
    have key : u * ((q - alignedValue ex (ex + E) al) / u + alignedValue x (x + w) al) ≤
        u * (x + w) := by
      rw [mul_add, hd]
      cases al <;> simp only [alignedValue] <;> linarith
    exact le_of_mul_le_mul_left key hu
  · field_simp
    ring

end SvgUtil

namespace SvgUtil

open PreserveAspectRatioParser

theorem QReal_div_zero_toOption (a : ℚ) : (QReal.div a 0).toOption = none := by
  unfold QReal.div
  split_ifs <;> first | rfl | (exfalso; simp_all)

theorem baselineTransform_zero (r b : QRectF) (h : r.width = 0 ∨ r.height = 0) :
    baselineTransform r b = none := by
  unfold baselineTransform
  rcases h with h | h
  · rw [h, QReal_div_zero_toOption]
    rfl
  · rw [h, QReal_div_zero_toOption]
    cases (QReal.div b.width r.width).toOption <;> rfl

/-- The transform `parseViewBox` stores in the aspect ratio branch, for a finite
uniform scale `u`. -/
theorem parseViewBox_aspect (init : PreserveAspectRatioParser) (e : KoXmlElement)
    (b viewRect : QRectF) (viewTransform : QTransform) (r : QRectF) (u : ℚ)
    (hr : viewBoxRect (e.attribute "viewBox".toList) = some r)
    (hattr : e.attribute "preserveAspectRatio".toList ≠ [])
    (hmode : (construct init (e.attribute "preserveAspectRatio".toList)).mode ≠
      AspectRatioMode.IgnoreAspectRatio)
    (hu : uniformScale (construct init (e.attribute "preserveAspectRatio".toList)) r b =
      QReal.finite u) :
    ∃ t : QTransform, (parseViewBox init e b viewRect viewTransform).viewTransform = some t ∧
      t.m11 = u ∧ t.m12 = 0 ∧ t.m21 = 0 ∧ t.m22 = u ∧
      ∀ pt : QPointF, t.map pt =
        ⟨u * (pt.x - ((construct init (e.attribute "preserveAspectRatio".toList)).rectAnchorPoint r).x) +
            ((construct init (e.attribute "preserveAspectRatio".toList)).rectAnchorPoint b).x,
         u * (pt.y - ((construct init (e.attribute "preserveAspectRatio".toList)).rectAnchorPoint r).y) +
            ((construct init (e.attribute "preserveAspectRatio".toList)).rectAnchorPoint b).y⟩ := by
  rw [(parseViewBox_of_rect init e b viewRect viewTransform r hr).2.2,
    viewBoxTransform_aspect init e r b hattr hmode]
  exact aspectTransform_of_scale _ r b u hu

/-- C12 (amended): `parseViewBox` does not look at the size of the parsed viewBox. For
every viewBox attribute that splits into four tokens it returns true and stores the
rectangle of the four parsed numbers, also when the parsed width or height is zero.
When the parsed width and height are both non-zero every coefficient of the stored
transform is finite; when one of them is zero and there is no preserveAspectRatio
attribute the scale is the result of a division by zero. -/
theorem C12_zero_size_viewBox_is_accepted (init : PreserveAspectRatioParser)
    (e : KoXmlElement) (elementBounds viewRect : QRectF) (viewTransform : QTransform)
    (p0 p1 p2 p3 : QString)
    (h : viewBoxPoints (e.attribute "viewBox".toList) = [p0, p1, p2, p3]) :
    (parseViewBox init e elementBounds viewRect viewTransform).result = true ∧
    (parseViewBox init e elementBounds viewRect viewTransform).viewRect =
      ⟨QString.toFloat p0, QString.toFloat p1, QString.toFloat p2, QString.toFloat p3⟩ ∧
    (QString.toFloat p2 ≠ 0 → QString.toFloat p3 ≠ 0 →
      ∃ t : QTransform,
        (parseViewBox init e elementBounds viewRect viewTransform).viewTransform = some t) ∧
    (e.attribute "preserveAspectRatio".toList = [] →
      (QString.toFloat p2 = 0 ∨ QString.toFloat p3 = 0) →
      (parseViewBox init e elementBounds viewRect viewTransform).viewTransform = none) := by
  have hr := viewBoxRect_of_points _ p0 p1 p2 p3 h
  obtain ⟨h1, h2, h3⟩ := parseViewBox_of_rect init e elementBounds viewRect viewTransform _ hr
  refine ⟨h1, h2, ?_, ?_⟩
  · intro hw hh
    rw [h3]
    simp only [viewBoxTransform]
    split
    · split
      · rcases uniformScale_finite (construct init (e.attribute "preserveAspectRatio".toList))
          ⟨QString.toFloat p0, QString.toFloat p1, QString.toFloat p2, QString.toFloat p3⟩
          elementBounds hw hh with hu | hu
        · obtain ⟨t, ht, _⟩ := aspectTransform_of_scale _ _ _ _ hu
          exact ⟨t, ht⟩
        · obtain ⟨t, ht, _⟩ := aspectTransform_of_scale _ _ _ _ hu
          exact ⟨t, ht⟩
      · exact ⟨_, baselineTransform_eq _ _ hw hh⟩
    · exact ⟨_, baselineTransform_eq _ _ hw hh⟩
  · intro ha hz
    rw [h3, viewBoxTransform_no_aspect init e _ _ ha]
    exact baselineTransform_zero _ _ hz

/-- C12 (counterexample): the viewBox `0 0 0 100` has the parsed width zero, and
`parseViewBox` returns true for it, stores a rectangle of width zero and a transform
whose horizontal scale is the result of a division by zero. -/
theorem C12_zero_width_counterexample :
    (parseViewBox ⟨false, AspectRatioMode.IgnoreAspectRatio, Alignment.Min, Alignment.Min⟩
        ⟨"svg".toList, [("viewBox".toList, "0 0 0 100".toList)]⟩
        ⟨0, 0, 200, 200⟩ ⟨0, 0, 0, 0⟩ ⟨1, 0, 0, 1, 0, 0⟩).result = true ∧
    (parseViewBox ⟨false, AspectRatioMode.IgnoreAspectRatio, Alignment.Min, Alignment.Min⟩
        ⟨"svg".toList, [("viewBox".toList, "0 0 0 100".toList)]⟩
        ⟨0, 0, 200, 200⟩ ⟨0, 0, 0, 0⟩ ⟨1, 0, 0, 1, 0, 0⟩).viewRect = ⟨0, 0, 0, 100⟩ ∧
    (parseViewBox ⟨false, AspectRatioMode.IgnoreAspectRatio, Alignment.Min, Alignment.Min⟩
        ⟨"svg".toList, [("viewBox".toList, "0 0 0 100".toList)]⟩
        ⟨0, 0, 200, 200⟩ ⟨0, 0, 0, 0⟩ ⟨1, 0, 0, 1, 0, 0⟩).viewTransform = none := by
  decide!

/-- C12 (amended) at a concrete input: the viewBox `0,0 100px 50px` splits into the four
tokens `0`, `0`, `100` and `50`; `parseViewBox` returns true and stores their
rectangle. -/
theorem C12_zero_size_viewBox_is_accepted_witness :
    viewBoxPoints
        ((⟨"svg".toList, [("viewBox".toList, "0,0 100px 50px".toList)]⟩ :
          KoXmlElement).attribute "viewBox".toList) =
      ["0".toList, "0".toList, "100".toList, "50".toList] ∧
    (parseViewBox ⟨false, AspectRatioMode.IgnoreAspectRatio, Alignment.Min, Alignment.Min⟩
        ⟨"svg".toList, [("viewBox".toList, "0,0 100px 50px".toList)]⟩
        ⟨0, 0, 200, 200⟩ ⟨0, 0, 0, 0⟩ ⟨1, 0, 0, 1, 0, 0⟩).result = true ∧
    (parseViewBox ⟨false, AspectRatioMode.IgnoreAspectRatio, Alignment.Min, Alignment.Min⟩
        ⟨"svg".toList, [("viewBox".toList, "0,0 100px 50px".toList)]⟩
        ⟨0, 0, 200, 200⟩ ⟨0, 0, 0, 0⟩ ⟨1, 0, 0, 1, 0, 0⟩).viewRect =
      ⟨QString.toFloat "0".toList, QString.toFloat "0".toList, QString.toFloat "100".toList,
        QString.toFloat "50".toList⟩ :=
  ⟨by decide!,
   (C12_zero_size_viewBox_is_accepted
      ⟨false, AspectRatioMode.IgnoreAspectRatio, Alignment.Min, Alignment.Min⟩
      ⟨"svg".toList, [("viewBox".toList, "0,0 100px 50px".toList)]⟩
      ⟨0, 0, 200, 200⟩ ⟨0, 0, 0, 0⟩ ⟨1, 0, 0, 1, 0, 0⟩
      "0".toList "0".toList "100".toList "50".toList (by decide!)).1,
   (C12_zero_size_viewBox_is_accepted
      ⟨false, AspectRatioMode.IgnoreAspectRatio, Alignment.Min, Alignment.Min⟩
      ⟨"svg".toList, [("viewBox".toList, "0,0 100px 50px".toList)]⟩
      ⟨0, 0, 200, 200⟩ ⟨0, 0, 0, 0⟩ ⟨1, 0, 0, 1, 0, 0⟩
      "0".toList "0".toList "100".toList "50".toList (by decide!)).2.1⟩

end SvgUtil

namespace SvgUtil

open PreserveAspectRatioParser

/-- C13: for a viewBox with non-zero width and height and no preserveAspectRatio
attribute, `parseViewBox` stores the transform with the horizontal scale
`elementWidth / w` and the vertical scale `elementHeight / h` that maps the viewBox
origin `(x, y)` to the point `(0, 0)`: the position of the element bounds is not
read, so the viewBox origin reaches the top-left corner of the bounds only when that
corner is `(0, 0)`. -/
theorem C13_baseline_transform_ignores_bounds_origin (init : PreserveAspectRatioParser)
    (e : KoXmlElement) (elementBounds viewRect : QRectF) (viewTransform : QTransform)
    (r : QRectF)
    (hr : viewBoxRect (e.attribute "viewBox".toList) = some r)
    (hattr : e.attribute "preserveAspectRatio".toList = [])
    (hw : r.width ≠ 0) (hh : r.height ≠ 0) :
    ∃ t : QTransform,
      (parseViewBox init e elementBounds viewRect viewTransform).viewTransform = some t ∧
      t.m11 = elementBounds.width / r.width ∧ t.m22 = elementBounds.height / r.height ∧
      t.m12 = 0 ∧ t.m21 = 0 ∧
      t.map ⟨r.x, r.y⟩ = ⟨0, 0⟩ ∧
      (t.map ⟨r.x, r.y⟩ = ⟨elementBounds.x, elementBounds.y⟩ ↔
        elementBounds.x = 0 ∧ elementBounds.y = 0) := by
  have hmap : (⟨elementBounds.width / r.width, 0, 0, elementBounds.height / r.height,
      -r.x * (elementBounds.width / r.width),
      -r.y * (elementBounds.height / r.height)⟩ : QTransform).map ⟨r.x, r.y⟩ = ⟨0, 0⟩ := by
    simp only [QTransform.map, QPointF.mk.injEq]
    constructor <;> ring
  refine ⟨_, ?_, rfl, rfl, rfl, rfl, hmap, ?_⟩
  · rw [(parseViewBox_of_rect init e elementBounds viewRect viewTransform r hr).2.2,
      viewBoxTransform_no_aspect init e r elementBounds hattr,
      baselineTransform_eq r elementBounds hw hh]
  · rw [hmap]
    simp only [QPointF.mk.injEq]
    constructor
    · rintro ⟨h1, h2⟩
      exact ⟨h1.symm, h2.symm⟩
    · rintro ⟨h1, h2⟩
      exact ⟨h1.symm, h2.symm⟩

/-- C13 at a concrete input: for the viewBox `0 0 100 100` the stored transform is the
scaling by 2 on both axes, for the bounds `(10, 20, 200, 200)` as for the bounds
`(0, 0, 200, 200)`; the viewBox origin is mapped to `(0, 0)`, not to `(10, 20)`. -/
theorem C13_baseline_transform_ignores_bounds_origin_witness :
    viewBoxRect ((⟨"svg".toList, [("viewBox".toList, "0 0 100 100".toList)]⟩ :
        KoXmlElement).attribute "viewBox".toList) = some ⟨0, 0, 100, 100⟩ ∧
    (⟨"svg".toList, [("viewBox".toList, "0 0 100 100".toList)]⟩ :
        KoXmlElement).attribute "preserveAspectRatio".toList = [] ∧
    (∃ t : QTransform,
      (parseViewBox ⟨false, AspectRatioMode.IgnoreAspectRatio, Alignment.Min, Alignment.Min⟩
        ⟨"svg".toList, [("viewBox".toList, "0 0 100 100".toList)]⟩
        ⟨10, 20, 200, 200⟩ ⟨0, 0, 0, 0⟩ ⟨1, 0, 0, 1, 0, 0⟩).viewTransform = some t ∧
      t.m11 = 200 / 100 ∧ t.m22 = 200 / 100 ∧ t.m12 = 0 ∧ t.m21 = 0 ∧
      t.map ⟨0, 0⟩ = ⟨0, 0⟩ ∧
      (t.map ⟨0, 0⟩ = ⟨10, 20⟩ ↔ (10 : ℚ) = 0 ∧ (20 : ℚ) = 0)) ∧
    (parseViewBox ⟨false, AspectRatioMode.IgnoreAspectRatio, Alignment.Min, Alignment.Min⟩
        ⟨"svg".toList, [("viewBox".toList, "0 0 100 100".toList)]⟩
        ⟨10, 20, 200, 200⟩ ⟨0, 0, 0, 0⟩ ⟨1, 0, 0, 1, 0, 0⟩).viewTransform =
      some ⟨2, 0, 0, 2, 0, 0⟩ ∧
    (parseViewBox ⟨false, AspectRatioMode.IgnoreAspectRatio, Alignment.Min, Alignment.Min⟩
        ⟨"svg".toList, [("viewBox".toList, "0 0 100 100".toList)]⟩
        ⟨0, 0, 200, 200⟩ ⟨0, 0, 0, 0⟩ ⟨1, 0, 0, 1, 0, 0⟩).viewTransform =
      some ⟨2, 0, 0, 2, 0, 0⟩ :=
  ⟨by decide!, by decide!,
   C13_baseline_transform_ignores_bounds_origin
      ⟨false, AspectRatioMode.IgnoreAspectRatio, Alignment.Min, Alignment.Min⟩
      ⟨"svg".toList, [("viewBox".toList, "0 0 100 100".toList)]⟩
      ⟨10, 20, 200, 200⟩ ⟨0, 0, 0, 0⟩ ⟨1, 0, 0, 1, 0, 0⟩ ⟨0, 0, 100, 100⟩
      (by decide!) (by decide!) (by decide!) (by decide!),
   by decide!, by decide!⟩

end SvgUtil

namespace SvgUtil

open PreserveAspectRatioParser

/-- C14: for a viewBox and element bounds with positive width and height and a
preserveAspectRatio attribute: when the attribute parses to the mode meet the stored
transform has the uniform scale `min (elementWidth / w) (elementHeight / h)` and the
image of every point of the viewBox rectangle lies in the element bounds; when it
parses to the mode slice the uniform scale is `max (elementWidth / w)
(elementHeight / h)` and every point of the element bounds is the image of a point of
the viewBox rectangle. -/
theorem C14_meet_and_slice_uniform_scale (init : PreserveAspectRatioParser)
    (e : KoXmlElement) (elementBounds viewRect : QRectF) (viewTransform : QTransform)
    (r : QRectF)
    (hr : viewBoxRect (e.attribute "viewBox".toList) = some r)
    (hattr : e.attribute "preserveAspectRatio".toList ≠ [])
    (hw : 0 < r.width) (hh : 0 < r.height)
    (hbw : 0 < elementBounds.width) (hbh : 0 < elementBounds.height) :
    ((construct init (e.attribute "preserveAspectRatio".toList)).mode =
        AspectRatioMode.KeepAspectRatio →
      ∃ t : QTransform,
        (parseViewBox init e elementBounds viewRect viewTransform).viewTransform = some t ∧
        t.m11 = min (elementBounds.width / r.width) (elementBounds.height / r.height) ∧
        t.m22 = min (elementBounds.width / r.width) (elementBounds.height / r.height) ∧
        t.m12 = 0 ∧ t.m21 = 0 ∧
        ∀ pt : QPointF, r.Contains pt → elementBounds.Contains (t.map pt)) ∧
    ((construct init (e.attribute "preserveAspectRatio".toList)).mode =
        AspectRatioMode.KeepAspectRatioByExpanding →
      ∃ t : QTransform,
        (parseViewBox init e elementBounds viewRect viewTransform).viewTransform = some t ∧
        t.m11 = max (elementBounds.width / r.width) (elementBounds.height / r.height) ∧
        t.m22 = max (elementBounds.width / r.width) (elementBounds.height / r.height) ∧
        t.m12 = 0 ∧ t.m21 = 0 ∧
        ∀ q : QPointF, elementBounds.Contains q →
          ∃ pt : QPointF, r.Contains pt ∧ t.map pt = q) := by
  have hqw : 0 < elementBounds.width / r.width := div_pos hbw hw
  have hqh : 0 < elementBounds.height / r.height := div_pos hbh hh
  constructor
  · intro hmode
    obtain ⟨t, ht, h11, h12, h21, h22, hmap⟩ :=
      parseViewBox_aspect init e elementBounds viewRect viewTransform r _ hr hattr
        (by rw [hmode]; decide) (uniformScale_meet _ r elementBounds hmode hw hh hbw hbh)
    refine ⟨t, ht, h11, h22, h12, h21, ?_⟩
    have hu : 0 ≤ min (elementBounds.width / r.width) (elementBounds.height / r.height) :=
      le_min (le_of_lt hqw) (le_of_lt hqh)
    have hux : min (elementBounds.width / r.width) (elementBounds.height / r.height) * r.width ≤
        elementBounds.width :=
      le_trans (mul_le_mul_of_nonneg_right (min_le_left _ _) (le_of_lt hw))
        (le_of_eq (div_mul_cancel₀ _ (ne_of_gt hw)))
    have huy : min (elementBounds.width / r.width) (elementBounds.height / r.height) * r.height ≤
        elementBounds.height :=
      le_trans (mul_le_mul_of_nonneg_right (min_le_right _ _) (le_of_lt hh))
        (le_of_eq (div_mul_cancel₀ _ (ne_of_gt hh)))
    rintro pt ⟨p1, p2, p3, p4⟩
    rw [hmap pt]
    have ax := alignedValue_meet r.x r.width elementBounds.x elementBounds.width _ pt.x
      (construct init (e.attribute "preserveAspectRatio".toList)).xAlignment hu hux p1 p2
    have ay := alignedValue_meet r.y r.height elementBounds.y elementBounds.height _ pt.y
      (construct init (e.attribute "preserveAspectRatio".toList)).yAlignment hu huy p3 p4
    exact ⟨ax.1, ax.2, ay.1, ay.2⟩
  · intro hmode
    obtain ⟨t, ht, h11, h12, h21, h22, hmap⟩ :=
      parseViewBox_aspect init e elementBounds viewRect viewTransform r _ hr hattr
        (by rw [hmode]; decide) (uniformScale_slice _ r elementBounds hmode hw hh hbw hbh)
    refine ⟨t, ht, h11, h22, h12, h21, ?_⟩
    have hu : 0 < max (elementBounds.width / r.width) (elementBounds.height / r.height) :=
      lt_of_lt_of_le hqw (le_max_left _ _)
    have hux : elementBounds.width ≤
        max (elementBounds.width / r.width) (elementBounds.height / r.height) * r.width :=
      le_trans (le_of_eq (div_mul_cancel₀ _ (ne_of_gt hw)).symm)
        (mul_le_mul_of_nonneg_right (le_max_left _ _) (le_of_lt hw))
    have huy : elementBounds.height ≤
        max (elementBounds.width / r.width) (elementBounds.height / r.height) * r.height :=
      le_trans (le_of_eq (div_mul_cancel₀ _ (ne_of_gt hh)).symm)
        (mul_le_mul_of_nonneg_right (le_max_right _ _) (le_of_lt hh))
    rintro q ⟨q1, q2, q3, q4⟩
    obtain ⟨px, px1, px2, px3⟩ :=
      alignedValue_slice r.x r.width elementBounds.x elementBounds.width _ q.x
        (construct init (e.attribute "preserveAspectRatio".toList)).xAlignment hu hux q1 q2
    obtain ⟨py, py1, py2, py3⟩ :=
      alignedValue_slice r.y r.height elementBounds.y elementBounds.height _ q.y
        (construct init (e.attribute "preserveAspectRatio".toList)).yAlignment hu huy q3 q4
    refine ⟨⟨px, py⟩, ⟨px1, px2, py1, py2⟩, ?_⟩
    rw [hmap]
    cases q
    simp only [QPointF.mk.injEq]
    exact ⟨px3, py3⟩

end SvgUtil

namespace SvgUtil

open PreserveAspectRatioParser

/-- C14 at a concrete input: the viewBox `0 0 100 50` in the bounds `(0, 0, 100, 100)`
gets the uniform scale 1 for ` xMidYMid meet` and the uniform scale 2 for
` xMidYMid slice`. -/
theorem C14_meet_and_slice_uniform_scale_witness :
    viewBoxRect ((⟨"svg".toList, [("viewBox".toList, "0 0 100 50".toList),
        ("preserveAspectRatio".toList, " xMidYMid meet".toList)]⟩ :
        KoXmlElement).attribute "viewBox".toList) = some ⟨0, 0, 100, 50⟩ ∧
    (construct ⟨false, AspectRatioMode.IgnoreAspectRatio, Alignment.Min, Alignment.Min⟩
      ((⟨"svg".toList, [("viewBox".toList, "0 0 100 50".toList),
        ("preserveAspectRatio".toList, " xMidYMid meet".toList)]⟩ :
        KoXmlElement).attribute "preserveAspectRatio".toList)).mode =
      AspectRatioMode.KeepAspectRatio ∧
    (∃ t : QTransform,
      (parseViewBox ⟨false, AspectRatioMode.IgnoreAspectRatio, Alignment.Min, Alignment.Min⟩
        ⟨"svg".toList, [("viewBox".toList, "0 0 100 50".toList),
          ("preserveAspectRatio".toList, " xMidYMid meet".toList)]⟩
        ⟨0, 0, 100, 100⟩ ⟨0, 0, 0, 0⟩ ⟨1, 0, 0, 1, 0, 0⟩).viewTransform = some t ∧
      t.m11 = min ((100 : ℚ) / 100) ((100 : ℚ) / 50) ∧
      t.m22 = min ((100 : ℚ) / 100) ((100 : ℚ) / 50) ∧
      t.m12 = 0 ∧ t.m21 = 0 ∧
      ∀ pt : QPointF, (⟨0, 0, 100, 50⟩ : QRectF).Contains pt →
        (⟨0, 0, 100, 100⟩ : QRectF).Contains (t.map pt)) ∧
    (parseViewBox ⟨false, AspectRatioMode.IgnoreAspectRatio, Alignment.Min, Alignment.Min⟩
        ⟨"svg".toList, [("viewBox".toList, "0 0 100 50".toList),
          ("preserveAspectRatio".toList, " xMidYMid meet".toList)]⟩
        ⟨0, 0, 100, 100⟩ ⟨0, 0, 0, 0⟩ ⟨1, 0, 0, 1, 0, 0⟩).viewTransform =
      some ⟨1, 0, 0, 1, 0, 25⟩ ∧
    (construct ⟨false, AspectRatioMode.IgnoreAspectRatio, Alignment.Min, Alignment.Min⟩
      ((⟨"svg".toList, [("viewBox".toList, "0 0 100 50".toList),
        ("preserveAspectRatio".toList, " xMidYMid slice".toList)]⟩ :
        KoXmlElement).attribute "preserveAspectRatio".toList)).mode =
      AspectRatioMode.KeepAspectRatioByExpanding ∧
    (∃ t : QTransform,
      (parseViewBox ⟨false, AspectRatioMode.IgnoreAspectRatio, Alignment.Min, Alignment.Min⟩
        ⟨"svg".toList, [("viewBox".toList, "0 0 100 50".toList),
          ("preserveAspectRatio".toList, " xMidYMid slice".toList)]⟩
        ⟨0, 0, 100, 100⟩ ⟨0, 0, 0, 0⟩ ⟨1, 0, 0, 1, 0, 0⟩).viewTransform = some t ∧
      t.m11 = max ((100 : ℚ) / 100) ((100 : ℚ) / 50) ∧
      t.m22 = max ((100 : ℚ) / 100) ((100 : ℚ) / 50) ∧
      t.m12 = 0 ∧ t.m21 = 0 ∧
      ∀ q : QPointF, (⟨0, 0, 100, 100⟩ : QRectF).Contains q →
        ∃ pt : QPointF, (⟨0, 0, 100, 50⟩ : QRectF).Contains pt ∧ t.map pt = q) ∧
    (parseViewBox ⟨false, AspectRatioMode.IgnoreAspectRatio, Alignment.Min, Alignment.Min⟩
        ⟨"svg".toList, [("viewBox".toList, "0 0 100 50".toList),
          ("preserveAspectRatio".toList, " xMidYMid slice".toList)]⟩
        ⟨0, 0, 100, 100⟩ ⟨0, 0, 0, 0⟩ ⟨1, 0, 0, 1, 0, 0⟩).viewTransform =
      some ⟨2, 0, 0, 2, -50, 0⟩ :=
  ⟨by decide!, by decide!,
   (C14_meet_and_slice_uniform_scale
      ⟨false, AspectRatioMode.IgnoreAspectRatio, Alignment.Min, Alignment.Min⟩
      ⟨"svg".toList, [("viewBox".toList, "0 0 100 50".toList),
        ("preserveAspectRatio".toList, " xMidYMid meet".toList)]⟩
      ⟨0, 0, 100, 100⟩ ⟨0, 0, 0, 0⟩ ⟨1, 0, 0, 1, 0, 0⟩ ⟨0, 0, 100, 50⟩
      (by decide!) (by decide!) (by decide!) (by decide!) (by decide!) (by decide!)).1
      (by decide!),
   by decide!, by decide!,
   (C14_meet_and_slice_uniform_scale
      ⟨false, AspectRatioMode.IgnoreAspectRatio, Alignment.Min, Alignment.Min⟩
      ⟨"svg".toList, [("viewBox".toList, "0 0 100 50".toList),
        ("preserveAspectRatio".toList, " xMidYMid slice".toList)]⟩
      ⟨0, 0, 100, 100⟩ ⟨0, 0, 0, 0⟩ ⟨1, 0, 0, 1, 0, 0⟩ ⟨0, 0, 100, 50⟩
      (by decide!) (by decide!) (by decide!) (by decide!) (by decide!) (by decide!)).2
      (by decide!),
   by decide!⟩

/-- C15: for a viewBox with non-zero width and height, any element bounds and a
preserveAspectRatio attribute that parses to a mode other than `IgnoreAspectRatio`
(meet or slice), the transform `parseViewBox` stores maps the alignment anchor of the
viewBox rectangle onto the same anchor of the element bounds; on each axis the anchor
of a rectangle is its near edge for `Min`, its centre for `Middle` and its far edge
for `Max`. -/
theorem C15_anchor_maps_to_anchor (init : PreserveAspectRatioParser)
    (e : KoXmlElement) (elementBounds viewRect : QRectF) (viewTransform : QTransform)
    (r : QRectF)
    (hr : viewBoxRect (e.attribute "viewBox".toList) = some r)
    (hattr : e.attribute "preserveAspectRatio".toList ≠ [])
    (hmode : (construct init (e.attribute "preserveAspectRatio".toList)).mode ≠
      AspectRatioMode.IgnoreAspectRatio)
    (hw : r.width ≠ 0) (hh : r.height ≠ 0) :
    (∃ t : QTransform,
      (parseViewBox init e elementBounds viewRect viewTransform).viewTransform = some t ∧
      t.map ((construct init (e.attribute "preserveAspectRatio".toList)).rectAnchorPoint r) =
        (construct init (e.attribute "preserveAspectRatio".toList)).rectAnchorPoint
          elementBounds) ∧
    (∀ (p : PreserveAspectRatioParser) (rc : QRectF),
      (p.rectAnchorPoint rc).x =
        (match p.xAlignment with
          | Alignment.Min => rc.x
          | Alignment.Middle => rc.x + rc.width / 2
          | Alignment.Max => rc.x + rc.width) ∧
      (p.rectAnchorPoint rc).y =
        (match p.yAlignment with
          | Alignment.Min => rc.y
          | Alignment.Middle => rc.y + rc.height / 2
          | Alignment.Max => rc.y + rc.height)) := by
  constructor
  · rcases uniformScale_finite (construct init (e.attribute "preserveAspectRatio".toList))
      r elementBounds hw hh with hu | hu
    · obtain ⟨t, ht, _, _, _, _, hmap⟩ :=
        parseViewBox_aspect init e elementBounds viewRect viewTransform r _ hr hattr hmode hu
      refine ⟨t, ht, ?_⟩
      rw [hmap]
      simp
    · obtain ⟨t, ht, _, _, _, _, hmap⟩ :=
        parseViewBox_aspect init e elementBounds viewRect viewTransform r _ hr hattr hmode hu
      refine ⟨t, ht, ?_⟩
      rw [hmap]
      simp
  · intro p rc
    constructor
    · simp only [rectAnchorPoint, alignedValue]
      cases p.xAlignment
      · rfl
      · simp only; ring
      · rfl
    · simp only [rectAnchorPoint, alignedValue]
      cases p.yAlignment
      · rfl
      · simp only; ring
      · rfl

/-- C15 at a concrete input: for the viewBox `0 0 100 50`, the bounds
`(0, 0, 100, 100)` and ` xMidYMid meet` the anchors are `(50, 25)` and `(50, 50)`,
and the stored transform maps the first onto the second. -/
theorem C15_anchor_maps_to_anchor_witness :
    viewBoxRect ((⟨"svg".toList, [("viewBox".toList, "0 0 100 50".toList),
        ("preserveAspectRatio".toList, " xMidYMid meet".toList)]⟩ :
        KoXmlElement).attribute "viewBox".toList) = some ⟨0, 0, 100, 50⟩ ∧
    (construct ⟨false, AspectRatioMode.IgnoreAspectRatio, Alignment.Min, Alignment.Min⟩
        " xMidYMid meet".toList).rectAnchorPoint ⟨0, 0, 100, 50⟩ = ⟨50, 25⟩ ∧
    (construct ⟨false, AspectRatioMode.IgnoreAspectRatio, Alignment.Min, Alignment.Min⟩
        " xMidYMid meet".toList).rectAnchorPoint ⟨0, 0, 100, 100⟩ = ⟨50, 50⟩ ∧
    (∃ t : QTransform,
      (parseViewBox ⟨false, AspectRatioMode.IgnoreAspectRatio, Alignment.Min, Alignment.Min⟩
        ⟨"svg".toList, [("viewBox".toList, "0 0 100 50".toList),
          ("preserveAspectRatio".toList, " xMidYMid meet".toList)]⟩
        ⟨0, 0, 100, 100⟩ ⟨0, 0, 0, 0⟩ ⟨1, 0, 0, 1, 0, 0⟩).viewTransform = some t ∧
      t.map ⟨50, 25⟩ = ⟨50, 50⟩) :=
  ⟨by decide!, by decide!, by decide!,
   (C15_anchor_maps_to_anchor
      ⟨false, AspectRatioMode.IgnoreAspectRatio, Alignment.Min, Alignment.Min⟩
      ⟨"svg".toList, [("viewBox".toList, "0 0 100 50".toList),
        ("preserveAspectRatio".toList, " xMidYMid meet".toList)]⟩
      ⟨0, 0, 100, 100⟩ ⟨0, 0, 0, 0⟩ ⟨1, 0, 0, 1, 0, 0⟩ ⟨0, 0, 100, 50⟩
      (by decide!) (by decide!) (by decide!) (by decide!) (by decide!)).1.imp
     (fun t h => ⟨h.1, by
       have h2 := h.2
       have e1 : (construct
           ⟨false, AspectRatioMode.IgnoreAspectRatio, Alignment.Min, Alignment.Min⟩
           ((⟨"svg".toList, [("viewBox".toList, "0 0 100 50".toList),
             ("preserveAspectRatio".toList, " xMidYMid meet".toList)]⟩ :
             KoXmlElement).attribute "preserveAspectRatio".toList)).rectAnchorPoint
           ⟨0, 0, 100, 50⟩ = ⟨50, 25⟩ := by decide!
       have e2 : (construct
           ⟨false, AspectRatioMode.IgnoreAspectRatio, Alignment.Min, Alignment.Min⟩
           ((⟨"svg".toList, [("viewBox".toList, "0 0 100 50".toList),
             ("preserveAspectRatio".toList, " xMidYMid meet".toList)]⟩ :
             KoXmlElement).attribute "preserveAspectRatio".toList)).rectAnchorPoint
           ⟨0, 0, 100, 100⟩ = ⟨50, 50⟩ := by decide!
       rw [e1, e2] at h2
       exact h2⟩)⟩

end SvgUtil

namespace SvgUtil

open PreserveAspectRatioParser

/-- C16: the pattern of `PreserveAspectRatioParser` asks for white space before the
alignment token and after it. A text `xAYB F` that starts with the alignment token
(such as `xMidYMid slice` and `xMinYMax meet`), and a text that ends with the
alignment token, is not matched and every member keeps its initial value. With a
blank before the alignment token, or the word `defer` and a blank, and with a blank
after it, the alignments `A` and `B`, the mode (slice for `slice`, else meet) and the
defer flag are recorded; letter case is not looked at. -/
theorem C16_alignment_token_needs_blanks (init : PreserveAspectRatioParser) :
    construct init "xMidYMid slice".toList = init ∧
    construct init "xMinYMax meet".toList = init ∧
    (∀ a b : Alignment,
      construct init (specText [] a b " meet".toList) = init ∧
      construct init (specText [] a b " slice".toList) = init ∧
      construct init (specText [] a b []) = init ∧
      construct init (specText " ".toList a b []) = init ∧
      construct init (specText "defer ".toList a b []) = init) ∧
    (∀ a b : Alignment,
      construct init (specText " ".toList a b " meet".toList) =
        { init with xAlignment := a, yAlignment := b,
                    mode := AspectRatioMode.KeepAspectRatio } ∧
      construct init (specText " ".toList a b " slice".toList) =
        { init with xAlignment := a, yAlignment := b,
                    mode := AspectRatioMode.KeepAspectRatioByExpanding } ∧
      construct init (specText " ".toList a b " ".toList) =
        { init with xAlignment := a, yAlignment := b,
                    mode := AspectRatioMode.KeepAspectRatio } ∧
      construct init (specText "defer ".toList a b " meet".toList) =
        { init with defer := true, xAlignment := a, yAlignment := b,
                    mode := AspectRatioMode.KeepAspectRatio } ∧
      construct init (specText "defer ".toList a b " slice".toList) =
        { init with defer := true, xAlignment := a, yAlignment := b,
                    mode := AspectRatioMode.KeepAspectRatioByExpanding } ∧
      construct init (specText "defer ".toList a b " ".toList) =
        { init with defer := true, xAlignment := a, yAlignment := b,
                    mode := AspectRatioMode.KeepAspectRatio }) ∧
    (∀ s s2 : QString, QString.toLower s = QString.toLower s2 →
      construct init s = construct init s2) := by
  refine ⟨rfl, rfl, ?_, ?_, ?_⟩
  · intro a b
    cases a <;> cases b <;> exact ⟨rfl, rfl, rfl, rfl, rfl⟩
  · intro a b
    cases a <;> cases b <;> exact ⟨rfl, rfl, rfl, rfl, rfl, rfl⟩
  · intro s s2 h
    simp only [construct, h]

end SvgUtil

/-! ### Reading decimal text -/

namespace QString

open NumberLiteral

theorem isDigit_digitChar (d : Fin 10) : isDigit (digitChar d) = true := by
  fin_cases d <;> rfl

end QString

namespace QString

open NumberLiteral

end QString

/-! ### Percentages -/

namespace SvgUtil

open NumberLiteral

/-- The characters of the text of a literal: those of a formatted number, and `E`. -/
theorem text_chars (l : NumberLiteral) :
    ∀ c ∈ l.text, QString.isNumberChar c = true ∨ c = 'E' := by
  intro c hc
  have hdig : ∀ ds : List (Fin 10), ∀ d ∈ digitsText ds, QString.isNumberChar d = true := by
    intro ds d hd
    simp only [digitsText, List.mem_map] at hd
    obtain ⟨k, _, rfl⟩ := hd
    exact QString.isNumberChar_of_isDigit (QString.isDigit_digitChar k)
  have hsign : ∀ sg : Option Bool, ∀ d ∈ signText sg, QString.isNumberChar d = true := by
    intro sg d hd
    rcases sg with _ | _ | _
    · simp [signText] at hd
    · rw [List.mem_singleton.1 hd]; decide
    · rw [List.mem_singleton.1 hd]; decide
  obtain ⟨sg, ints, frac, exp⟩ := l
  simp only [NumberLiteral.text, List.mem_append] at hc
  rcases hc with ((hc | hc) | hc) | hc
  · exact Or.inl (hsign sg c hc)
  · exact Or.inl (hdig ints c hc)
  · cases frac with
    | none => simp at hc
    | some fs =>
      rcases List.mem_cons.1 hc with rfl | hc
      · exact Or.inl (by decide)
      · exact Or.inl (hdig fs c hc)
  · cases exp with
    | none => simp at hc
    | some e =>
      simp only [NumberLiteral.exponentText, List.mem_cons, List.mem_append] at hc
      rcases hc with rfl | hc | hc
      · cases e.upper
        · exact Or.inl (by decide)
        · exact Or.inr rfl
      · exact Or.inl (hsign e.sign c hc)
      · exact Or.inl (hdig e.digits c hc)

theorem text_param_chars (l : NumberLiteral) :
    ∀ c ∈ l.text, QChar.isSpace c = false ∧ c ≠ '(' ∧ c ≠ ')' ∧ c ≠ ',' := by
  intro c hc
  rcases text_chars l c hc with h | rfl
  · exact isParamChar_of_isNumberChar h
  · exact ⟨by decide, by decide, by decide, by decide⟩

theorem text_ne_nil_of_isDecimal (l : NumberLiteral) (h : l.isDecimal = true) :
    l.text ≠ [] := by
  obtain ⟨sg, ints, frac, exp⟩ := l
  simp only [NumberLiteral.isDecimal, Bool.and_eq_true, Bool.or_eq_true, Bool.not_eq_true',
    List.isEmpty_eq_false] at h
  rcases h.1 with h1 | h1
  · cases ints with
    | nil => exact absurd rfl h1
    | cons d ds => simp [NumberLiteral.text, digitsText]
  · cases frac with
    | none => simp at h1
    | some fs => simp [NumberLiteral.text]

/-- The text of a decimal literal is a parameter token. -/
theorem isParam_text (l : NumberLiteral) (h : l.isDecimal = true) : IsParam l.text :=
  ⟨text_ne_nil_of_isDecimal l h, text_param_chars l⟩

end SvgUtil

namespace SvgUtil

theorem parseTransform_single (lm : Libm) (p : Primitive) (hp : p.wellFormed = true) :
    parseTransform lm (p.body ++ [')']) = some p.matrix := by
  have h := foldlM_transformListText lm [([], p)]
    (by
      intro it hit
      rw [List.mem_singleton.1 hit]
      exact ⟨rfl, hp⟩)
    QTransform.identity
  have e : transformListText [([], p)] = p.body ++ [')'] := by
    simp [transformListText]
  rw [e] at h
  unfold parseTransform
  rw [h]
  simp [QTransform.mul, QTransform.identity]

end SvgUtil

/-- C18: `translate(v)` parses to the same transform as `translate(v,0)`, and
`scale(v)` to the same transform as `scale(v,v)`; but the fallback is not limited to
one parameter: it is taken whenever the count is not two, so `translate(1,2,3)`
parses to the translation by `(1, 0)` and `scale(2,3,4)` to the scaling by `(2, 2)`. -/
theorem C18_fallback_taken_for_other_counts (lm : Libm) :
    (∀ v : QString, SvgUtil.isParamToken v = true →
      SvgUtil.parseTransform lm ("translate(".toList ++ v ++ ")".toList) =
          some ⟨1, 0, 0, 1, QString.toDouble v, 0⟩ ∧
        SvgUtil.parseTransform lm ("translate(".toList ++ v ++ ",".toList ++ "0".toList ++
          ")".toList) = some ⟨1, 0, 0, 1, QString.toDouble v, 0⟩ ∧
        SvgUtil.parseTransform lm ("scale(".toList ++ v ++ ")".toList) =
          some ⟨QString.toDouble v, 0, 0, QString.toDouble v, 0, 0⟩ ∧
        SvgUtil.parseTransform lm ("scale(".toList ++ v ++ ",".toList ++ v ++ ")".toList) =
          some ⟨QString.toDouble v, 0, 0, QString.toDouble v, 0, 0⟩) ∧
    SvgUtil.parseTransform lm "translate(1,2,3)".toList = some ⟨1, 0, 0, 1, 1, 0⟩ ∧
    SvgUtil.parseTransform lm "translate(1,0)".toList = some ⟨1, 0, 0, 1, 1, 0⟩ ∧
    SvgUtil.parseTransform lm "scale(2,3,4)".toList = some ⟨2, 0, 0, 2, 0, 0⟩ ∧
    SvgUtil.parseTransform lm "scale(2,2)".toList = some ⟨2, 0, 0, 2, 0, 0⟩ := by
  refine ⟨?_, ?_, ?_, ?_, ?_⟩
  · intro v hv
    have h0 : QString.toDouble "0".toList = 0 := by decide!
    have t1 := SvgUtil.parseTransform_single lm (SvgUtil.Primitive.translate1 v)
      (by simpa [SvgUtil.Primitive.wellFormed] using hv)
    have t2 := SvgUtil.parseTransform_single lm (SvgUtil.Primitive.translate v "0".toList)
      (by
        have h0t : SvgUtil.isParamToken ['0'] = true := by decide
        simp [SvgUtil.Primitive.wellFormed, hv, h0t])
    have s1 := SvgUtil.parseTransform_single lm (SvgUtil.Primitive.scale1 v)
      (by simpa [SvgUtil.Primitive.wellFormed] using hv)
    have s2 := SvgUtil.parseTransform_single lm (SvgUtil.Primitive.scale v v)
      (by simp [SvgUtil.Primitive.wellFormed, hv])
    simp only [SvgUtil.Primitive.body, SvgUtil.Primitive.matrix, h0] at t1 t2 s1 s2
    refine ⟨?_, ?_, ?_, ?_⟩
    · simpa using t1
    · simpa using t2
    · simpa using s1
    · simpa using s2
  · with_unfolding_all rfl
  · with_unfolding_all rfl
  · with_unfolding_all rfl
  · with_unfolding_all rfl

/-! ### Object space and user space -/

namespace SvgUtil

theorem userSpaceToObject_eq (position : QPointF) (objectBound : QRectF) :
    userSpaceToObject position objectBound =
      some ⟨if objectBound.width ≠ 0 then (position.x - objectBound.x) / objectBound.width
            else 0,
           if objectBound.height ≠ 0 then (position.y - objectBound.y) / objectBound.height
            else 0⟩ := by
  by_cases hw : objectBound.width = 0 <;> by_cases hh : objectBound.height = 0 <;>
    simp [userSpaceToObject, userSpaceToObjectCoords, QReal.div, QReal.toOption, hw, hh]

theorem userSpaceToObjectSize_eq (size : QSizeF) (objectBound : QRectF) :
    userSpaceToObjectSize size objectBound =
      some ⟨if objectBound.width ≠ 0 then size.width / objectBound.width else 0,
           if objectBound.height ≠ 0 then size.height / objectBound.height else 0⟩ := by
  by_cases hw : objectBound.width = 0 <;> by_cases hh : objectBound.height = 0 <;>
    simp [userSpaceToObjectSize, userSpaceToObjectSizeCoords, QReal.div, QReal.toOption, hw, hh]

end SvgUtil

/-- C19: both overloads of `userSpaceToObject` return a point or size for every
input, so no coordinate is the result of a division by zero; the x (width) component
is 0 when the bounding box has zero width and the y (height) component is 0 when it
has zero height. -/
theorem C19_userSpaceToObject_zero_guard (position : QPointF) (size : QSizeF)
    (objectBound : QRectF) :
    (∃ p : QPointF, SvgUtil.userSpaceToObject position objectBound = some p ∧
      (objectBound.width = 0 → p.x = 0) ∧ (objectBound.height = 0 → p.y = 0)) ∧
    (∃ s : QSizeF, SvgUtil.userSpaceToObjectSize size objectBound = some s ∧
      (objectBound.width = 0 → s.width = 0) ∧ (objectBound.height = 0 → s.height = 0)) ∧
    (∃ a b : ℚ, SvgUtil.userSpaceToObjectCoords position objectBound =
      (QReal.finite a, QReal.finite b)) ∧
    (∃ a b : ℚ, SvgUtil.userSpaceToObjectSizeCoords size objectBound =
      (QReal.finite a, QReal.finite b)) := by
  refine ⟨⟨_, SvgUtil.userSpaceToObject_eq position objectBound, ?_, ?_⟩,
    ⟨_, SvgUtil.userSpaceToObjectSize_eq size objectBound, ?_, ?_⟩, ?_, ?_⟩
  · intro h; simp [h]
  · intro h; simp [h]
  · intro h; simp [h]
  · intro h; simp [h]
  · by_cases hw : objectBound.width = 0 <;> by_cases hh : objectBound.height = 0 <;>
      simp [SvgUtil.userSpaceToObjectCoords, QReal.div, hw, hh]
  · by_cases hw : objectBound.width = 0 <;> by_cases hh : objectBound.height = 0 <;>
      simp [SvgUtil.userSpaceToObjectSizeCoords, QReal.div, hw, hh]

/-- C20: on a bounding box of non-zero width and height the conversions between
object space and user space are inverse to each other, for points and for sizes. -/
theorem C20_object_user_space_inverse (b : QRectF) (p : QPointF) (s : QSizeF)
    (hw : b.width ≠ 0) (hh : b.height ≠ 0) :
    (∃ q : QPointF, SvgUtil.userSpaceToObject p b = some q ∧
      SvgUtil.objectToUserSpace q b = p) ∧
    SvgUtil.userSpaceToObject (SvgUtil.objectToUserSpace p b) b = some p ∧
    (∃ t : QSizeF, SvgUtil.userSpaceToObjectSize s b = some t ∧
      SvgUtil.objectToUserSpaceSize t b = s) ∧
    SvgUtil.userSpaceToObjectSize (SvgUtil.objectToUserSpaceSize s b) b = some s := by
  refine ⟨⟨_, SvgUtil.userSpaceToObject_eq p b, ?_⟩, ?_, ⟨_, SvgUtil.userSpaceToObjectSize_eq s b, ?_⟩, ?_⟩
  · obtain ⟨px, py⟩ := p
    simp only [SvgUtil.objectToUserSpace, QRectF.left, QRectF.top, hw, hh, ne_eq,
      not_false_eq_true, if_true, QPointF.mk.injEq]
    constructor <;> field_simp
  · rw [SvgUtil.userSpaceToObject_eq]
    obtain ⟨px, py⟩ := p
    simp only [SvgUtil.objectToUserSpace, QRectF.left, QRectF.top, hw, hh, ne_eq,
      not_false_eq_true, if_true, Option.some.injEq, QPointF.mk.injEq]
    constructor <;> field_simp
  · obtain ⟨sw, sh⟩ := s
    simp only [SvgUtil.objectToUserSpaceSize, hw, hh, ne_eq, not_false_eq_true, if_true,
      QSizeF.mk.injEq]
    constructor <;> field_simp
  · rw [SvgUtil.userSpaceToObjectSize_eq]
    obtain ⟨sw, sh⟩ := s
    simp only [SvgUtil.objectToUserSpaceSize, hw, hh, ne_eq, not_false_eq_true, if_true,
      Option.some.injEq, QSizeF.mk.injEq]
    constructor <;> field_simp

/-- C20 at a concrete input: on the box `(10, 20, 200, 100)` the point `(60, 45)` is
`(1/4, 1/4)` in object space, and converting back gives `(60, 45)`. -/
theorem C20_object_user_space_inverse_witness :
    (200 : ℚ) ≠ 0 ∧ (100 : ℚ) ≠ 0 ∧
    SvgUtil.userSpaceToObject
      (SvgUtil.objectToUserSpace ⟨60, 45⟩ ⟨10, 20, 200, 100⟩) ⟨10, 20, 200, 100⟩ =
        some ⟨60, 45⟩ :=
  ⟨by norm_num, by norm_num,
    (C20_object_user_space_inverse ⟨10, 20, 200, 100⟩ ⟨60, 45⟩ ⟨1, 1⟩ (by norm_num)
      (by norm_num)).2.1⟩
